import Mathlib

/-!
Verification development for an accessibility-scanning pipeline:
a web crawler (`crawlWebsite`), a violation deduplication engine
(`createViolationSignature` / `groupViolations`) and a reconciliation
engine against an external issue tracker (`syncIssues`).

Strings are embedded as `List Char` so every operation is an executable,
kernel-reducible function.  JavaScript regular-expression replacements are
embedded as explicit left-to-right scans with the same leftmost-match,
continue-after-replacement semantics.  The MD5 digest used by the source
only matters through equality of digests, so it is embedded as an injective
placeholder (`md5`), mapping each input to itself.
-/

set_option maxHeartbeats 1000000
set_option maxRecDepth 100000

/-- Character strings of the embedded program, as lists of characters. -/
abbrev Str := List Char

/-- Converts a Lean string literal to the embedded string type. -/
def str (s : String) : Str := s.data

/-- Whitespace per the JavaScript regular-expression class used by the source
(the characters matched by `\s`). -/
def isJsSpace (c : Char) : Bool :=
  c == ' ' || c == '\t' || c == '\n' || c == '\x0b' || c == '\x0c' || c == '\r' ||
  c == '\u00A0' || c == '\u1680' || c == '\u2000' || c == '\u2001' || c == '\u2002' ||
  c == '\u2003' || c == '\u2004' || c == '\u2005' || c == '\u2006' || c == '\u2007' ||
  c == '\u2008' || c == '\u2009' || c == '\u200A' || c == '\u2028' || c == '\u2029' ||
  c == '\u202F' || c == '\u205F' || c == '\u3000' || c == '\uFEFF'

/-- ASCII lower-casing of one character, as `toLowerCase` acts on the
ASCII inputs of this pipeline. -/
def jsLowerChar (c : Char) : Char :=
  if 'A' ≤ c ∧ c ≤ 'Z' then Char.ofNat (c.toNat + 32) else c

/-- ASCII upper-casing of one character, used by the issue-summary renderer. -/
def jsUpperChar (c : Char) : Char :=
  if 'a' ≤ c ∧ c ≤ 'z' then Char.ofNat (c.toNat - 32) else c

/-- Lower-cases a string (`.toLowerCase()`). -/
def jsToLower (s : Str) : Str := s.map jsLowerChar

/-- Upper-cases a string (`.toUpperCase()`). -/
def jsToUpper (s : Str) : Str := s.map jsUpperChar

/-- Collapses every whitespace run to a single space: `.replace(/\s+/g, ' ')`.
A run's single space is emitted at the run's last character. -/
def collapseWs : Str → Str
  | [] => []
  | c :: cs =>
    match cs with
    | [] => if isJsSpace c then [' '] else [c]
    | c2 :: _ =>
      if isJsSpace c ∧ isJsSpace c2 then collapseWs cs
      else if isJsSpace c then ' ' :: collapseWs cs
      else c :: collapseWs cs

/-- Strips leading and trailing whitespace (`.trim()`). -/
def jsTrim (s : Str) : Str :=
  ((s.dropWhile isJsSpace).reverse.dropWhile isJsSpace).reverse

/-- Substring containment test (`String.prototype.includes`): some suffix of
`s` starts with `pat`. -/
def includes (s pat : Str) : Bool :=
  match s with
  | [] => pat.isEmpty
  | _ :: cs => pat.isPrefixOf s || includes cs pat

/-- Word characters of the `\w` regular-expression class. -/
def isWordChar (c : Char) : Bool :=
  ('a' ≤ c && c ≤ 'z') || ('A' ≤ c && c ≤ 'Z') || ('0' ≤ c && c ≤ '9') || c == '_'

/-- Decimal digits (`\d`). -/
def isDigitCh (c : Char) : Bool := '0' ≤ c && c ≤ '9'

/-- Lower-case hexadecimal characters (`[a-f0-9]`). -/
def isHexCh (c : Char) : Bool := ('a' ≤ c && c ≤ 'f') || isDigitCh c

/-- Lower-case letters (`[a-z]`). -/
def isLowerCh (c : Char) : Bool := 'a' ≤ c && c ≤ 'z'

/-- Characters allowed in a `data-` attribute name tail (`[a-z-]`). -/
def isDataNameCh (c : Char) : Bool := isLowerCh c || c == '-'

/-- Run tracker for `hasRun`: `cur` characters satisfying `p` directly
precede the current position. -/
def hasRunAux (p : Char → Bool) (k : Nat) : Nat → Str → Bool
  | cur, [] => decide (k ≤ cur)
  | cur, c :: cs =>
    if k ≤ cur then true
    else if p c then hasRunAux p k (cur + 1) cs
    else hasRunAux p k 0 cs

/-- Tests whether a string contains a run of at least `k` consecutive
characters satisfying `p`; `hasRun p k s` embeds regular-expression tests
such as `/\d{3,}/.test(s)`. -/
def hasRun (p : Char → Bool) (k : Nat) (s : Str) : Bool := hasRunAux p k 0 s

/-- Fueled engine of the generic scan-and-replace; the fuel is only a
structural-recursion device and never runs out when it starts at the
string's length. -/
def scanGo (m : Str → Option (Str × Nat)) : Nat → Str → Str
  | _, [] => []
  | 0, s => s
  | Nat.succ n, c :: cs =>
    match m (c :: cs) with
    | some (r, k) => r ++ scanGo m n (cs.drop k)
    | none => c :: scanGo m n cs

/-- A generic leftmost-first scan-and-replace.  The matcher `m` inspects a
suffix; on success it returns the replacement text together with the number
of matched characters minus one (so a match always consumes at least one
character, as every pattern in the source does).  This embeds
`String.prototype.replace` with a `/g` regular expression. -/
def scanWith (m : Str → Option (Str × Nat)) (s : Str) : Str := scanGo m s.length s

/-- Splits a string at its first double quote: the result is the quote-free
prefix and the remainder after the quote, or `none` when no quote occurs.
This embeds the `"[^"]*"` tail of the source's attribute patterns. -/
def splitAtQuote (s : Str) : Option (Str × Str) :=
  let v := s.takeWhile (fun c => c ≠ '"')
  let rest := s.drop v.length
  match rest with
  | '"' :: r => some (v, r)
  | _ => none

/-- Matcher for `/aria-controls="[^"]*"/g`; the replacement is
`aria-controls=""`. -/
def ariaControlsMatch (s : Str) : Option (Str × Nat) :=
  let lit := str "aria-controls=\""
  if lit.isPrefixOf s then
    match splitAtQuote (s.drop lit.length) with
    | some (v, _) => some (str "aria-controls=\"\"", lit.length + v.length)
    | none => none
  else none

/-- Matcher for `/\sid="[^"]*"/g`; the replacement is a space followed by
`id=""`. -/
def idAttrMatch (s : Str) : Option (Str × Nat) :=
  match s with
  | c :: cs =>
    if isJsSpace c ∧ (str "id=\"").isPrefixOf cs then
      match splitAtQuote (cs.drop 4) with
      | some (v, _) => some (str " id=\"\"", 4 + v.length + 1)
      | none => none
    else none
  | [] => none

/-- Matcher for `/\sdata-[a-z-]+="[^"]*"/g`; the match is removed. -/
def dataAttrMatch (s : Str) : Option (Str × Nat) :=
  match s with
  | c :: cs =>
    if isJsSpace c ∧ (str "data-").isPrefixOf cs then
      let nm := (cs.drop 5).takeWhile isDataNameCh
      if nm ≠ [] ∧ (str "=\"").isPrefixOf (cs.drop (5 + nm.length)) then
        match splitAtQuote (cs.drop (5 + nm.length + 2)) with
        | some (v, _) => some ([], 5 + nm.length + 2 + v.length + 1)
        | none => none
      else none
    else none
  | [] => none

/-- Keeps a class token unless it looks machine generated: a token is dropped
when it contains three or more consecutive digits or six or more consecutive
hexadecimal characters (`/\d{3,}|[a-f0-9]{6,}/.test(c)`). -/
def keepClassToken (t : Str) : Bool := !(hasRun isDigitCh 3 t || hasRun isHexCh 6 t)

/-- Splits on every single occurrence of a character (`String.prototype.split`
with a one-character separator, keeping empty fields). -/
def splitOnChar (sep : Char) : Str → List Str
  | [] => [[]]
  | c :: cs =>
    if c = sep then [] :: splitOnChar sep cs
    else
      match splitOnChar sep cs with
      | [] => [[c]]
      | f :: r => (c :: f) :: r

/-- The replacement computed for one `class="..."` attribute: generated-looking
tokens are filtered out and the attribute disappears entirely when nothing
remains. -/
def classReplacement (classes : Str) : Str :=
  let clean := List.intercalate (str " ") ((splitOnChar ' ' classes).filter keepClassToken)
  if clean = [] then [] else str " class=\"" ++ clean ++ str "\""

/-- Matcher for `/\sclass="([^"]*)"/g` with the token-filtering replacement
function of the source. -/
def classAttrMatch (s : Str) : Option (Str × Nat) :=
  match s with
  | c :: cs =>
    if isJsSpace c ∧ (str "class=\"").isPrefixOf cs then
      match splitAtQuote (cs.drop 7) with
      | some (v, _) => some (classReplacement v, 7 + v.length + 1)
      | none => none
    else none
  | [] => none

/-- The four dynamic-attribute removal passes of `createViolationSignature`,
in source order: `aria-controls` values, `id` values, `data-*` attributes,
generated-looking class tokens. -/
def stripDynamicAttrs (s : Str) : Str :=
  scanWith classAttrMatch
    (scanWith dataAttrMatch (scanWith idAttrMatch (scanWith ariaControlsMatch s)))

/-- Whitespace collapsing, trimming and lower-casing: the first normalization
stage of `createViolationSignature`. -/
def normalizeBase (s : Str) : Str := jsToLower (jsTrim (collapseWs s))

/-- Full HTML normalization used before fingerprinting. -/
def normalizeHtml (s : Str) : Str := stripDynamicAttrs (normalizeBase s)

/-- Parses the opening tag, embedding `normalizedHtml.match(/^<(\w+)([^>]*)>/)`:
a leading `<`, one or more word characters (the tag name), then every
character up to the first `>` (the attribute text). -/
def parseOpeningTag (s : Str) : Option (Str × Str) :=
  match s with
  | '<' :: rest =>
    let tag := rest.takeWhile isWordChar
    if tag = [] then none
    else
      let after := rest.drop tag.length
      let attrs := after.takeWhile (fun c => c ≠ '>')
      match after.drop attrs.length with
      | '>' :: _ => some (tag, attrs)
      | _ => none
  | _ => none

/-- One attempt of the semantic-attribute pattern
`(role|aria-[a-z]+|type|name|placeholder)="[^"]*"` at the head of a string:
on success, the full matched text and the number of matched characters. -/
def semAttrAt (s : Str) : Option (Str × Nat) :=
  let tryLit : Str → Option (Str × Nat) := fun lit =>
    if lit.isPrefixOf s ∧ (str "=\"").isPrefixOf (s.drop lit.length) then
      match splitAtQuote (s.drop (lit.length + 2)) with
      | some (v, _) =>
        some (lit ++ str "=\"" ++ v ++ str "\"", lit.length + 2 + v.length + 1)
      | none => none
    else none
  let tryAria : Option (Str × Nat) :=
    if (str "aria-").isPrefixOf s then
      let nm := (s.drop 5).takeWhile isLowerCh
      if nm ≠ [] then tryLit (str "aria-" ++ nm) else none
    else none
  (tryLit (str "role")).orElse fun _ =>
  tryAria.orElse fun _ =>
  (tryLit (str "type")).orElse fun _ =>
  (tryLit (str "name")).orElse fun _ =>
  tryLit (str "placeholder")

/-- Fueled engine of the semantic-attribute collector. -/
def collectSemGo : Nat → Str → List Str
  | _, [] => []
  | 0, _ => []
  | Nat.succ n, c :: cs =>
    match semAttrAt (c :: cs) with
    | some (m, k) => m :: collectSemGo n (cs.drop (k - 1))
    | none => collectSemGo n cs

/-- Collects every non-overlapping semantic-attribute match, left to right:
`attributes.match(/(role|aria-[a-z]+|type|name|placeholder)="[^"]*"/g) || []`. -/
def collectSemanticAttrs (s : Str) : List Str := collectSemGo s.length s

/-- Lexicographic string comparison by character code, the default
`Array.prototype.sort()` comparator on strings. -/
def strLe : Str → Str → Bool
  | [], _ => true
  | _ :: _, [] => false
  | a :: as, b :: bs =>
    if a < b then true
    else if b < a then false
    else strLe as bs

/-- Stable insertion used by the embedded sorts. -/
def insertLe {α : Type} (le : α → α → Bool) (x : α) : List α → List α
  | [] => [x]
  | y :: ys => if le x y ∧ ¬ le y x then x :: y :: ys else y :: insertLe le x ys

/-- Stable sort by a boolean `le` relation, modelling the (stable)
`Array.prototype.sort`. -/
def sortByLe {α : Type} (le : α → α → Bool) (l : List α) : List α :=
  l.foldl (fun acc x => insertLe le x acc) []

/-- Drops every `:` followed by digits: `.replace(/:\d+/g, '')`.  Note that
the colon must be directly followed by a digit for a match. -/
def colonDigitsMatch (s : Str) : Option (Str × Nat) :=
  match s with
  | ':' :: c :: _ =>
    if isDigitCh c then
      let run := (s.drop 1).takeWhile isDigitCh
      some ([], run.length)
    else none
  | _ => none

/-- Drops every `#` selector: `.replace(/#[^\s>]+/g, '')`. -/
def hashSelMatch (s : Str) : Option (Str × Nat) :=
  match s with
  | '#' :: c :: _ =>
    if ¬ isJsSpace c ∧ c ≠ '>' then
      let run := (s.drop 1).takeWhile (fun c => ¬ isJsSpace c ∧ c ≠ '>')
      some ([], run.length)
    else none
  | _ => none

/-- Splits a selector path on the literal separator `' > '`
(`String.prototype.split(' > ')`). -/
def splitSelPath : Str → List Str
  | ' ' :: '>' :: ' ' :: rest => [] :: splitSelPath rest
  | c :: cs =>
    match splitSelPath cs with
    | [] => [[c]]
    | f :: r => (c :: f) :: r
  | [] => [[]]

/-- Last `n` elements of a list (`Array.prototype.slice(-n)`). -/
def lastN {α : Type} (n : Nat) (l : List α) : List α := l.drop (l.length - n)

/-- The selector-pattern derivation of `createViolationSignature`: drop
`:`-digit runs, drop `#` selectors, keep the last three ` > `-separated
segments. -/
def selectorPattern (sel : Str) : Str :=
  List.intercalate (str " > ")
    (lastN 3 (splitSelPath (scanWith hashSelMatch (scanWith colonDigitsMatch sel))))

/-- JSON string escaping as performed by `JSON.stringify` on the signature
record's string fields. -/
def jsonEscapeChar (c : Char) : Str :=
  if c = '"' then str "\\\""
  else if c = '\\' then str "\\\\"
  else if c = '\x08' then str "\\b"
  else if c = '\t' then str "\\t"
  else if c = '\n' then str "\\n"
  else if c = '\x0c' then str "\\f"
  else if c = '\r' then str "\\r"
  else if c.val < 32 then
    str "\\u00" ++ [(Nat.digitChar (c.toNat / 16)), (Nat.digitChar (c.toNat % 16))]
  else [c]

/-- JSON escaping of a whole string field. -/
def jsonEscape (s : Str) : Str := s.flatMap jsonEscapeChar

/-- One `"key":"value"` field of the stringified signature record. -/
def jsonField (key v : Str) : Str :=
  str "\"" ++ key ++ str "\":\"" ++ jsonEscape v ++ str "\""

/-- `JSON.stringify` of the signature record, with the source's fixed key
order `ruleId, tagName, semanticAttributes, selectorPattern, impact`. -/
def jsonStringifySig (ruleId tagName semanticAttributes selPat impact : Str) : Str :=
  [ '\x7b' ] ++
  jsonField (str "ruleId") ruleId ++ str "," ++
  jsonField (str "tagName") tagName ++ str "," ++
  jsonField (str "semanticAttributes") semanticAttributes ++ str "," ++
  jsonField (str "selectorPattern") selPat ++ str "," ++
  jsonField (str "impact") impact ++
  [ '\x7d' ]

/-- The MD5 digest, embedded as an injective placeholder: every property
proved here depends only on equality of digests, never on their format. -/
def md5 (s : Str) : Str := s

/-- DOM context attached to a violation; only the CSS selector path is
consumed by the deduplication engine, the other captured fields
(xpath, ancestors, siblings, computed styles) are never read by it. -/
structure DOMContext where
  cssSelector : Str
deriving Repr, DecidableEq

/-- A raw violation instance with DOM context, as produced per page by the
test collector (`ViolationWithContext`). -/
structure ViolationWithContext where
  ruleId : Str
  impact : Option Str
  description : Str
  help : Str
  helpUrl : Str
  wcagTags : List Str
  html : Str
  context : DOMContext
deriving Repr, DecidableEq

/-- The `violation.impact || 'unknown'` defaulting used throughout. -/
def impactOr (v : ViolationWithContext) : Str := v.impact.getD (str "unknown")

/-- Creates the unique signature of a violation: normalize the HTML, parse
the opening tag, keep only semantic attributes, derive the selector pattern,
stringify and hash; falls back to hashing the rule id with the first 100
characters of the normalized HTML when no opening tag parses. -/
def createViolationSignature (v : ViolationWithContext) : Str :=
  let normalizedHtml := normalizeHtml v.html
  match parseOpeningTag normalizedHtml with
  | none => md5 (v.ruleId ++ str ":" ++ normalizedHtml.take 100)
  | some (tagName, attributes) =>
    let semanticAttrs := collectSemanticAttrs attributes
    let selPat := selectorPattern v.context.cssSelector
    md5 (jsonStringifySig v.ruleId tagName
      (List.intercalate (str " ") (sortByLe strLe semanticAttrs)) selPat (impactOr v))

/-- One recorded occurrence of a violation group. -/
structure Occurrence where
  url : Str
  selector : Str
  html : Str
deriving Repr, DecidableEq

/-- A violation group: the merge point of all instances sharing a signature. -/
structure ViolationGroup where
  signature : Str
  ruleId : Str
  impact : Str
  description : Str
  help : Str
  helpUrl : Str
  wcagTags : List Str
  exampleHtml : Str
  exampleSelector : Str
  occurrences : List Occurrence
  totalOccurrences : Nat
deriving Repr, DecidableEq

/-- The fresh group created the first time a signature is seen. -/
def freshGroup (sig : Str) (v : ViolationWithContext) : ViolationGroup where
  signature := sig
  ruleId := v.ruleId
  impact := impactOr v
  description := v.description
  help := v.help
  helpUrl := v.helpUrl
  wcagTags := v.wcagTags
  exampleHtml := v.html
  exampleSelector := v.context.cssSelector
  occurrences := []
  totalOccurrences := 0

/-- Appends one occurrence to a group and bumps its counter; the two fields
are always updated together. -/
def pushOccurrence (url : Str) (v : ViolationWithContext) (g : ViolationGroup) :
    ViolationGroup :=
  { g with
    occurrences := g.occurrences ++ [⟨url, v.context.cssSelector, v.html⟩]
    totalOccurrences := g.totalOccurrences + 1 }

/-- The signature-keyed group map, embedded as an association list in
insertion order (the iteration order of a JavaScript `Map`). -/
abbrev GroupMap := List (Str × ViolationGroup)

/-- Processes one violation instance: create the group on first sight of its
signature, then record the occurrence. -/
def addViolation (url : Str) (v : ViolationWithContext) (m : GroupMap) : GroupMap :=
  let sig := createViolationSignature v
  let m1 := if m.any (fun p => p.1 = sig) then m else m ++ [(sig, freshGroup sig v)]
  m1.map (fun p => if p.1 = sig then (p.1, pushOccurrence url v p.2) else p)

/-- Folds every page's violations into the group map, in map-iteration order. -/
def buildGroups (entries : List (Str × List ViolationWithContext)) : GroupMap :=
  entries.foldl (fun acc e => e.2.foldl (fun a v => addViolation e.1 v a) acc) []

/-- Rank of an impact in the final sort (`critical < serious < moderate <
minor < unknown`); other impact strings have no rank. -/
def impactRank (s : Str) : Option Nat :=
  if s = str "critical" then some 0
  else if s = str "serious" then some 1
  else if s = str "moderate" then some 2
  else if s = str "minor" then some 3
  else if s = str "unknown" then some 4
  else none

/-- The group comparator of the final sort: by impact rank, then by
descending occurrence count.  When either impact has no rank the
JavaScript comparator produces `NaN`, which the sort treats as `0`
(elements compare equal). -/
def groupCmp (a b : ViolationGroup) : Int :=
  match impactRank a.impact, impactRank b.impact with
  | some x, some y =>
    if (x : Int) - y ≠ 0 then (x : Int) - y
    else (b.totalOccurrences : Int) - a.totalOccurrences
  | _, _ => 0

/-- Boolean `le` induced by the comparator, for the stable sort. -/
def groupLe (a b : ViolationGroup) : Bool := groupCmp a b ≤ 0

/-- Groups violations from multiple pages by signature and sorts the groups
by impact severity then descending occurrence count. -/
def groupViolations (entries : List (Str × List ViolationWithContext)) :
    List ViolationGroup :=
  sortByLe groupLe ((buildGroups entries).map Prod.snd)

/-- All (url, instance) pairs of a grouping input, in iteration order. -/
def instancesOf (entries : List (Str × List ViolationWithContext)) :
    List (Str × ViolationWithContext) :=
  entries.flatMap (fun e => e.2.map (fun v => (e.1, v)))

/-- Folding step over single (url, instance) pairs. -/
def addInst (m : GroupMap) (p : Str × ViolationWithContext) : GroupMap :=
  addViolation p.1 p.2 m

/-- The signature of one (url, instance) pair. -/
def sigOf (p : Str × ViolationWithContext) : Str := createViolationSignature p.2

/-- Keys of a group map, in insertion order. -/
def mapKeys (m : GroupMap) : List Str := m.map Prod.fst

/-- Signature and occurrence counter of every entry of a group map. -/
def keyTotals (m : GroupMap) : List (Str × Nat) :=
  m.map (fun p => (p.1, p.2.totalOccurrences))

/-- Well-formedness of the group map: keys are distinct, each group records
its key as its signature, and each counter equals the occurrence-list length
and is at least one. -/
def GoodMap (m : GroupMap) : Prop :=
  (m.map Prod.fst).Nodup ∧
  ∀ p ∈ m, p.2.signature = p.1 ∧
    p.2.totalOccurrences = p.2.occurrences.length ∧ 1 ≤ p.2.totalOccurrences

/-- Counter bump on a signature-count association list: increment the
signature's counter, creating it at one when absent. -/
def bump (s : Str) (kt : List (Str × Nat)) : List (Str × Nat) :=
  if kt.any (fun q => q.1 = s) then
    kt.map (fun q => if q.1 = s then (q.1, q.2 + 1) else q)
  else kt ++ [(s, 1)]

/-- Total number of violation instances in a grouping input. -/
def totalInstances (entries : List (Str × List ViolationWithContext)) : Nat :=
  (entries.map (fun e => e.2.length)).sum

/-- The occurrence recorded for one (url, instance) pair. -/
def occOf (p : Str × ViolationWithContext) : Occurrence :=
  ⟨p.1, p.2.context.cssSelector, p.2.html⟩

/-- A concrete missing-alt violation instance used by the C10 witness. -/
def c10v : ViolationWithContext :=
  ⟨str "image-alt", some (str "critical"), str "d", str "h", str "hu",
   [str "wcag2a"], str "<img src=\"x\">", ⟨str "main > img"⟩⟩

/-- The same instance on two pages. -/
def c10entries : List (Str × List ViolationWithContext) :=
  [(str "u1", [c10v]), (str "u2", [c10v])]

/-- The single group produced for `c10entries`. -/
def c10g : ViolationGroup :=
  ⟨str "\x7b\"ruleId\":\"image-alt\",\"tagName\":\"img\",\"semanticAttributes\":\"\",\"selectorPattern\":\"main > img\",\"impact\":\"critical\"\x7d",
   str "image-alt", str "critical", str "d", str "h", str "hu", [str "wcag2a"],
   str "<img src=\"x\">", str "main > img",
   [⟨str "u1", str "main > img", str "<img src=\"x\">"⟩,
    ⟨str "u2", str "main > img", str "<img src=\"x\">"⟩], 2⟩

/-- An instance whose HTML has no parseable opening tag, for the C8 witness. -/
def c8badV : ViolationWithContext :=
  ⟨str "weird-rule", some (str "minor"), str "d", str "h", str "hu", [],
   str "plain text, no tag", ⟨str "a > b"⟩⟩

/-- A one-page input holding only the unparseable instance. -/
def c8entries : List (Str × List ViolationWithContext) :=
  [(str "p1", [c8badV])]

/-- A structured HTML attribute of an element's opening tag. -/
structure HtmlAttr where
  name : Str
  value : Str
deriving Repr, DecidableEq

/-- Renders one attribute as ` name="value"`. -/
def renderAttr (a : HtmlAttr) : Str :=
  [' '] ++ a.name ++ ['=', '"'] ++ a.value ++ ['"']

/-- Renders an attribute list. -/
def renderAttrs (l : List HtmlAttr) : Str := l.flatMap renderAttr

/-- A structured HTML element with one level of markup. -/
structure HtmlElem where
  tag : Str
  attrs : List HtmlAttr
  text : Str
deriving Repr, DecidableEq

/-- Renders an element as `<tag attrs>text</tag>`. -/
def renderElem (e : HtmlElem) : Str :=
  ['<'] ++ e.tag ++ renderAttrs e.attrs ++ ['>'] ++ e.text ++
  ['<', '/'] ++ e.tag ++ ['>']

/-- Characters allowed in a clean attribute value: anything except the
delimiters and operators the normalization patterns key on. -/
def cleanValCh (c : Char) : Bool :=
  !(c = '"' || c = '=' || c = '<' || c = '>')

/-- A clean attribute name: nonempty, lower-case letters and dashes, and not
ending in `aria-controls` unless it is exactly that name. -/
def cleanNameB (n : Str) : Bool :=
  !n.isEmpty && n.all isDataNameCh &&
  (n == str "aria-controls" || !((str "aria-controls").isSuffixOf n))

/-- A clean attribute: clean name, clean value characters, and no ` data-`
substring inside the value (which could otherwise be mistaken for a
`data-*` attribute by the normalization). -/
def cleanAttrB (a : HtmlAttr) : Bool :=
  cleanNameB a.name && a.value.all cleanValCh &&
  !(includes a.value (str " data-"))

/-- Clean attribute list. -/
def cleanAttrsB (l : List HtmlAttr) : Bool := l.all cleanAttrB

/-- A clean tag name: nonempty word characters. -/
def cleanTagB (t : Str) : Bool := !t.isEmpty && t.all isWordChar

/-- A clean element. -/
def cleanElemB (e : HtmlElem) : Bool := cleanTagB e.tag && cleanAttrsB e.attrs

/-- Effect of the `aria-controls` pass on one attribute. -/
def ariaT (a : HtmlAttr) : HtmlAttr :=
  if a.name = str "aria-controls" then ⟨a.name, []⟩ else a

/-- Effect of the `id` pass on one attribute. -/
def idT (a : HtmlAttr) : HtmlAttr :=
  if a.name = str "id" then ⟨a.name, []⟩ else a

/-- Whether a name is a removable `data-*` attribute name. -/
def isDataAttrName (n : Str) : Bool :=
  (str "data-").isPrefixOf n && decide (5 < n.length)

/-- Effect of the `data-*` pass on one attribute. -/
def dataT (a : HtmlAttr) : List HtmlAttr :=
  if isDataAttrName a.name then [] else [a]

/-- Effect of the class-token filtering pass on one attribute. -/
def clsT (a : HtmlAttr) : List HtmlAttr :=
  if a.name = str "class" then
    let clean :=
      List.intercalate (str " ") ((splitOnChar ' ' a.value).filter keepClassToken)
    if clean = [] then [] else [⟨str "class", clean⟩]
  else [a]

/-- The combined effect of the four dynamic-attribute passes on a clean
attribute list. -/
def normAttrs (l : List HtmlAttr) : List HtmlAttr :=
  (((l.map ariaT).map idT).flatMap dataT).flatMap clsT

/-- Two attributes agree up to instance-specific noise: they are equal, or
both are `id` attributes (any values), or both are `class` attributes whose
kept (non-machine-generated) token sequences coincide. -/
def attrRel (a1 a2 : HtmlAttr) : Prop :=
  a1 = a2 ∨
  (a1.name = str "id" ∧ a2.name = str "id") ∨
  (a1.name = str "class" ∧ a2.name = str "class" ∧
    (splitOnChar ' ' a1.value).filter keepClassToken =
      (splitOnChar ' ' a2.value).filter keepClassToken)

/-- Two elements differ only in text content, id attribute values and
machine-generated class tokens. -/
def elemRelated (e1 e2 : HtmlElem) : Prop :=
  e1.tag = e2.tag ∧ List.Forall₂ attrRel e1.attrs e2.attrs

/-- First element of the signature-stability witness. -/
def c1e1 : HtmlElem :=
  ⟨str "button", [⟨str "id", str "submit-1"⟩, ⟨str "class", str "btn abc123"⟩],
   str "click"⟩

/-- Second element of the signature-stability witness. -/
def c1e2 : HtmlElem :=
  ⟨str "button", [⟨str "id", str "x9"⟩, ⟨str "class", str "btn deadbeef99"⟩],
   str "submit"⟩

/-- First witness instance. -/
def c1v1 : ViolationWithContext :=
  ⟨str "button-name", some (str "critical"), str "d", str "h", str "hu",
   [str "wcag2a"], renderElem c1e1, ⟨str "div > form > button"⟩⟩

/-- Second witness instance. -/
def c1v2 : ViolationWithContext :=
  ⟨str "button-name", some (str "critical"), str "d", str "h", str "hu",
   [str "wcag2a"], renderElem c1e2, ⟨str "div > form > button"⟩⟩

/-- The two witness instances on two different pages. -/
def c1entries : List (Str × List ViolationWithContext) :=
  [(str "p1", [c1v1]), (str "p2", [c1v2])]

/-- First of two same-signature instances differing only in text content. -/
def c3v1 : ViolationWithContext :=
  ⟨str "button-name", some (str "critical"), str "d", str "h", str "hu", [],
   str "<button>Click</button>", ⟨str "a > b"⟩⟩

/-- Second of two same-signature instances differing only in text content. -/
def c3v2 : ViolationWithContext :=
  ⟨str "button-name", some (str "critical"), str "d", str "h", str "hu", [],
   str "<button>Submit</button>", ⟨str "a > b"⟩⟩

/-- A two-entry grouping input. -/
def c3e1 : List (Str × List ViolationWithContext) :=
  [(str "u1", [c3v1]), (str "u2", [c3v2])]

/-- The same entries in the opposite iteration order. -/
def c3e2 : List (Str × List ViolationWithContext) :=
  [(str "u2", [c3v2]), (str "u1", [c3v1])]

/-- Decimal rendering of a number, as interpolated into issue bodies. -/
def natToStr (n : Nat) : Str := (Nat.repr n).data

/-- Badge color for an impact level (`getImpactColor`). -/
def getImpactColor (impact : Str) : Str :=
  if impact = str "critical" then str "red"
  else if impact = str "serious" then str "orange"
  else if impact = str "moderate" then str "yellow"
  else if impact = str "minor" then str "blue"
  else if impact = str "unknown" then str "gray"
  else str "gray"

/-- Per-URL occurrence counts in first-seen order, embedding the
`uniquePages` map of `generateGroupSummary`. -/
def uniquePages (occs : List Occurrence) : List (Str × Nat) :=
  occs.foldl
    (fun acc o =>
      if acc.any (fun p => p.1 = o.url) then
        acc.map (fun p => if p.1 = o.url then (p.1, p.2 + 1) else p)
      else acc ++ [(o.url, 1)])
    []

/-- One bullet line of the pages list. -/
def pageLine (p : Str × Nat) : Str :=
  str "- [" ++ p.1 ++ str "](" ++ p.1 ++ str ") (" ++ natToStr p.2 ++
  str " instance" ++ (if p.2 > 1 then str "s" else []) ++ str ")\n"

/-- The markdown body rendered for a violation group (`generateGroupSummary`),
reproduced concatenation by concatenation; the body ends by embedding the
group's signature between backticks. -/
def generateGroupSummary (g : ViolationGroup) : Str :=
  let impactBadge :=
    str "![" ++ g.impact ++ str "](https://img.shields.io/badge/impact-" ++
    g.impact ++ str "-" ++ getImpactColor g.impact ++ str ")"
  let wcagBadges :=
    List.intercalate (str " ")
      (g.wcagTags.map fun tag =>
        str "![" ++ tag ++ str "](https://img.shields.io/badge/WCAG-" ++ tag ++
        str "-blue)")
  str "# " ++ g.ruleId ++ str "\n\n" ++
  impactBadge ++ str " " ++ wcagBadges ++ str "\n\n" ++
  str "## Description\n\n" ++ g.description ++ str "\n\n" ++
  str "## How to Fix\n\n" ++ g.help ++ str "\n\n" ++
  str "ðŸ“š [Learn more](" ++ g.helpUrl ++ str ")\n\n" ++
  str "## Impact\n\n" ++
  str "- **Severity**: " ++ jsToUpper g.impact ++ str "\n" ++
  str "- **Total Occurrences**: " ++ natToStr g.totalOccurrences ++ str "\n" ++
  str "- **Pages Affected**: " ++ natToStr g.occurrences.length ++ str "\n\n" ++
  str "## Example Violation\n\n" ++
  str "**Selector**: `" ++ g.exampleSelector ++ str "`\n\n" ++
  str "**HTML**:\n```html\n" ++ g.exampleHtml.take 500 ++ str "\n```\n\n" ++
  str "## Pages Where This Occurs\n\n" ++
  List.foldl (fun acc p => acc ++ pageLine p) [] (uniquePages g.occurrences) ++
  str "\n## Remediation Steps\n\n" ++
  str "1. Search your codebase for: `" ++ g.exampleSelector ++ str "`\n" ++
  str "2. Look for HTML matching this pattern:\n" ++
  str "   ```html\n   " ++ g.exampleHtml.take 100 ++ str "...\n   ```\n" ++
  str "3. Apply the fix described in the \"How to Fix\" section\n" ++
  str "4. Test the changes on all affected pages\n\n" ++
  str "---\n\n" ++
  str "*This issue was automatically generated by the accessibility scanner*\n" ++
  str "*Signature: `" ++ g.signature ++ str "`*\n"

/-- Labels attached to a group's issue (`generateLabels`). -/
def generateLabels (g : ViolationGroup) : List Str :=
  [str "accessibility", str "a11y:" ++ g.ruleId, str "impact:" ++ g.impact] ++
  g.wcagTags.filter (fun tag => (str "wcag").isPrefixOf tag)

/-- A tracked issue in the external store. -/
structure TrackedIssue where
  number : Nat
  title : Str
  body : Str
  labels : List Str
  isOpen : Bool
deriving Repr, DecidableEq

/-- The external tracker's state: its issues plus the next issue number. -/
structure Tracker where
  issues : List TrackedIssue
  nextNumber : Nat
deriving Repr, DecidableEq

/-- Issue actions reported by reconciliation. -/
inductive IssueAction where
  | created
  | updated
  | unchanged
deriving Repr, DecidableEq

/-- One reconciliation result (`IssueResult`). -/
structure IssueResult where
  signature : Str
  action : IssueAction
  issueNumber : Nat
deriving Repr, DecidableEq

/-- The open accessibility-labelled issues, in tracker order
(`getExistingA11yIssues`). -/
def getExistingA11yIssues (t : Tracker) : List TrackedIssue :=
  t.issues.filter (fun i => i.isOpen && i.labels.contains (str "accessibility"))

/-- The signature token embedded in and searched for in issue bodies. -/
def sigToken (sig : Str) : Str := str "Signature: `" ++ sig ++ str "`"

/-- Whether one issue matches one group: its body contains the group's
signature token, or — falling back — its title contains the rule id. -/
def issueMatches (g : ViolationGroup) (i : TrackedIssue) : Bool :=
  includes i.body (sigToken g.signature) || includes i.title g.ruleId

/-- First-match-wins search for an existing issue (`findMatchingIssue`). -/
def findMatchingIssue (g : ViolationGroup) (existingIssues : List TrackedIssue) :
    Option TrackedIssue :=
  existingIssues.find? (issueMatches g)

/-- The title given to a new issue. -/
def issueTitle (g : ViolationGroup) : Str :=
  str "[A11y] " ++ g.ruleId ++ str ": " ++ g.description.take 80

/-- Creates a new issue for a group (`createIssue`); the body is the rendered
group summary, which embeds the signature. -/
def createIssue (g : ViolationGroup) (t : Tracker) : IssueResult × Tracker :=
  (⟨g.signature, .created, t.nextNumber⟩,
   ⟨t.issues ++
      [⟨t.nextNumber, issueTitle g, generateGroupSummary g, generateLabels g, true⟩],
    t.nextNumber + 1⟩)

/-- Overwrites an existing issue's body and labels with fresh data
(`updateIssue`); the audit comment posted alongside is not part of the
tracked state. -/
def updateIssue (issueNumber : Nat) (g : ViolationGroup) (t : Tracker) :
    IssueResult × Tracker :=
  (⟨g.signature, .updated, issueNumber⟩,
   { t with
     issues := t.issues.map fun i =>
       if i.number = issueNumber then
         { i with body := generateGroupSummary g, labels := generateLabels g }
       else i })

/-- First-match extraction of an embedded signature token at the head of a
string: the pattern `Signature: `​`([^`]+)`​` requires a nonempty capture
closed by a backtick. -/
def extractSigAt (s : Str) : Option Str :=
  let lit := str "Signature: `"
  if lit.isPrefixOf s then
    let after := s.drop lit.length
    let cap := after.takeWhile (fun c => c ≠ '`')
    if cap ≠ [] ∧ (after.drop cap.length).head? = some '`' then some cap else none
  else none

/-- Scans a body for the first embedded signature token
(`body.match(/Signature: ...`)`). -/
def extractSignature : Str → Option Str
  | [] => none
  | c :: cs =>
    match extractSigAt (c :: cs) with
    | some cap => some cap
    | none => extractSignature cs

/-- Marks one issue closed. -/
def closeIssue (issueNumber : Nat) (t : Tracker) : Tracker :=
  { t with
    issues := t.issues.map fun i =>
      if i.number = issueNumber then { i with isOpen := false } else i }

/-- The per-issue closing decision: read the snapshot issue's embedded
signature and close the issue when it is absent from the current set. -/
def closeStep (currentSignatures : List Str) (t : Tracker) (i : TrackedIssue) :
    Tracker :=
  match extractSignature i.body with
  | none => t
  | some sig =>
    if currentSignatures.contains sig then t else closeIssue i.number t

/-- Closes every snapshot issue whose embedded signature is absent from the
current group set (`closeResolvedIssues`); issues embedding no parseable
token are skipped. -/
def closeResolvedIssues (existingIssues : List TrackedIssue)
    (currentGroups : List ViolationGroup) (t : Tracker) : Tracker :=
  existingIssues.foldl (closeStep (currentGroups.map (fun g => g.signature))) t

/-- One group's reconciliation step against the fixed snapshot: update the
first matching issue, otherwise create a new one. -/
def syncStep (existingIssues : List TrackedIssue)
    (acc : List IssueResult × Tracker) (g : ViolationGroup) :
    List IssueResult × Tracker :=
  match findMatchingIssue g existingIssues with
  | some i =>
    let r := updateIssue i.number g acc.2
    (acc.1 ++ [r.1], r.2)
  | none =>
    let r := createIssue g acc.2
    (acc.1 ++ [r.1], r.2)

/-- Reconciliation (`syncIssues`): snapshot the open accessibility issues,
then per group update the first matching issue or create a new one, then
close resolved issues against the same snapshot. -/
def syncIssues (groups : List ViolationGroup) (t : Tracker) :
    List IssueResult × Tracker :=
  let existingIssues := getExistingA11yIssues t
  let step := groups.foldl (syncStep existingIssues) ([], t)
  (step.1, closeResolvedIssues existingIssues groups step.2)

/-- The issue created for a group at a given number. -/
def mkIssue (g : ViolationGroup) (n : Nat) : TrackedIssue :=
  ⟨n, issueTitle g, generateGroupSummary g, generateLabels g, true⟩

/-- The issues created for a run of groups from a starting number. -/
def createdList : List ViolationGroup → Nat → List TrackedIssue
  | [], _ => []
  | g :: gs, n => mkIssue g n :: createdList gs (n + 1)

/-- Number of open accessibility-labelled issues. -/
def openA11yCount (t : Tracker) : Nat := (getExistingA11yIssues t).length

/-- Every issue of the tracker is open and accessibility-labelled. -/
def AllOpenLabeled (t : Tracker) : Prop :=
  ∀ i ∈ t.issues, i.isOpen = true ∧ i.labels.contains (str "accessibility") = true

/-- A violation group fed to the reconciliation counterexample and witness. -/
def c2Group : ViolationGroup :=
  ⟨str "s", str "r1", str "critical", str "d", str "h", str "hu", [str "wcag2a"],
   str "<button>x</button>", str "a > b",
   [⟨str "u", str "a > b", str "<button>x</button>"⟩], 1⟩

/-- A pre-existing open issue whose title contains the rule id but whose body
embeds a different, stale signature. -/
def c2Stale : TrackedIssue :=
  ⟨7, str "[A11y] r1: old", str "old body *Signature: `oldsig`*",
   [str "accessibility"], true⟩

/-- A tracker holding only the stale issue. -/
def c2Tracker : Tracker := ⟨[c2Stale], 8⟩

/-- A group whose signature no open issue carries. -/
def c6Group : ViolationGroup :=
  ⟨str "sigY", str "button-name", str "critical", str "d", str "h", str "hu", [],
   str "<button>x</button>", str "a > b",
   [⟨str "u", str "a > b", str "<button>x</button>"⟩], 1⟩

/-- An open issue embedding a different signature token while its title
contains the group's rule id. -/
def c6Issue : TrackedIssue :=
  ⟨3, str "[A11y] button-name: fix the button", str "intro *Signature: `sigX`* outro",
   [str "accessibility"], true⟩

/-- A tracker holding only that issue. -/
def c6Tracker : Tracker := ⟨[c6Issue], 4⟩

/-- A fetched page as the crawler sees it: final status code, title and the
same-origin, fragment-stripped, deduplicated links extracted from it. -/
structure FetchedPage where
  statusCode : Nat
  title : Str
  links : List Str
deriving Repr, DecidableEq

/-- The external web: navigation either fails (`none`) or yields a page. -/
abbrev Web := Str → Option FetchedPage

/-- Crawl options (`CrawlOptions`). -/
structure CrawlOptions where
  baseUrl : Str
  maxPages : Nat
  maxDepth : Nat
  includePatterns : List Str
  excludePatterns : List Str
  respectRobotsTxt : Bool
deriving Repr, DecidableEq

/-- One crawl record (`CrawlResult`). -/
structure CrawlResult where
  url : Str
  depth : Nat
  statusCode : Nat
  title : Str
deriving Repr, DecidableEq

/-- Remainder of a URL after its first `://`, or `none` when the URL has no
scheme separator (the `URL` constructor would throw). -/
def afterScheme : Str → Option Str
  | [] => none
  | c :: cs =>
    if (str "://").isPrefixOf (c :: cs) then some (cs.drop 2)
    else afterScheme cs

/-- Pathname of a hierarchical URL, as read off `new URL(url).pathname`:
the part from the first `/` after the host up to a query or fragment,
defaulting to `/`. -/
def urlPathname (url : Str) : Option Str :=
  match afterScheme url with
  | none => none
  | some rest =>
    let tail := rest.dropWhile (fun c => c ≠ '/' ∧ c ≠ '?' ∧ c ≠ '#')
    match tail with
    | '/' :: _ => some (tail.takeWhile (fun c => c ≠ '?' ∧ c ≠ '#'))
    | _ => some (str "/")

/-- Whether a URL is excluded: it contains an exclude pattern, its pathname
falls under a robots disallow prefix, or it cannot be parsed as a URL
(`shouldExclude`). -/
def shouldExclude (url : Str) (excludePatterns disallowedPaths : List Str) : Bool :=
  if excludePatterns.any (fun pat => includes url pat) then true
  else
    match urlPathname url with
    | none => true
    | some p => disallowedPaths.any (fun d => d.isPrefixOf p)

/-- Whether a URL contains at least one include pattern (`matchesAnyPattern`). -/
def matchesAnyPattern (url : Str) (patterns : List Str) : Bool :=
  patterns.any (fun pat => includes url pat)

/-- Outcome of requesting `/robots.txt`. -/
inductive RobotsOutcome where
  | fetchFailure
  | timeout
  | httpResponse (status : Nat) (body : Str)
deriving Repr, DecidableEq

/-- The simple robots.txt parser: track whether the current `User-agent:`
block mentions `*` and collect the nonempty `Disallow:` paths of such
blocks. -/
def parseRobots (body : Str) : List Str :=
  (List.foldl
    (fun (st : Bool × List Str) line =>
      let trimmed := jsTrim line
      let flag :=
        if (str "User-agent:").isPrefixOf trimmed then includes trimmed (str "*")
        else st.1
      if flag ∧ (str "Disallow:").isPrefixOf trimmed then
        let path := jsTrim (trimmed.drop 9)
        if path ≠ [] then (flag, st.2 ++ [path]) else (flag, st.2)
      else (flag, st.2))
    (false, [])
    (splitOnChar '\n' body)).2

/-- `fetchRobotsTxt`: a failed fetch, a timeout, or a non-OK status all
degrade to an empty disallow list; an OK response is parsed. -/
def fetchRobotsTxt (r : RobotsOutcome) : List Str :=
  match r with
  | .fetchFailure => []
  | .timeout => []
  | .httpResponse status body =>
    if 200 ≤ status ∧ status ≤ 299 then parseRobots body else []

/-- The crawl frontier: pending queue, visited set and collected records. -/
structure CrawlState where
  toVisit : List (Str × Nat)
  visited : List Str
  results : List CrawlResult
deriving Repr, DecidableEq

/-- One pass of the crawl loop body with explicit fuel: dequeue, run the
admission checks, fetch, record the page and enqueue its unvisited links. -/
def crawlLoop (o : CrawlOptions) (web : Web) (disallowed : List Str) :
    Nat → CrawlState → CrawlState
  | 0, s => s
  | Nat.succ fuel, s =>
    match s.toVisit with
    | [] => s
    | (url, depth) :: rest =>
      if ¬ s.results.length < o.maxPages then s
      else if s.visited.contains url then
        crawlLoop o web disallowed fuel { s with toVisit := rest }
      else if depth > o.maxDepth then
        crawlLoop o web disallowed fuel { s with toVisit := rest }
      else if shouldExclude url o.excludePatterns disallowed then
        crawlLoop o web disallowed fuel { s with toVisit := rest }
      else if o.includePatterns ≠ [] ∧ ¬ matchesAnyPattern url o.includePatterns then
        crawlLoop o web disallowed fuel { s with toVisit := rest }
      else
        let visited' := s.visited ++ [url]
        match web url with
        | none =>
          crawlLoop o web disallowed fuel
            { toVisit := rest, visited := visited', results := s.results }
        | some f =>
          if 200 ≤ f.statusCode ∧ f.statusCode < 400 then
            let newLinks :=
              if depth < o.maxDepth then
                (f.links.filter (fun l => ¬ visited'.contains l)).map
                  (fun l => (l, depth + 1))
              else []
            crawlLoop o web disallowed fuel
              { toVisit := rest ++ newLinks,
                visited := visited',
                results := s.results ++ [⟨url, depth, f.statusCode, f.title⟩] }
          else
            crawlLoop o web disallowed fuel
              { toVisit := rest, visited := visited', results := s.results }

/-- The initial frontier: the base URL at depth 0. -/
def initialCrawlState (o : CrawlOptions) : CrawlState :=
  ⟨[(o.baseUrl, 0)], [], []⟩

/-- `crawlWebsite`: resolve the robots policy (best effort), then run the
crawl loop from the seeded frontier. -/
def crawlWebsite (o : CrawlOptions) (web : Web) (robots : RobotsOutcome)
    (fuel : Nat) : List CrawlResult :=
  let disallowed := if o.respectRobotsTxt then fetchRobotsTxt robots else []
  (crawlLoop o web disallowed fuel (initialCrawlState o)).results

/-- A robots.txt request outcome that did not produce an OK response:
a network failure, a timeout, or a non-2xx status. -/
def robotsFailed : RobotsOutcome → Prop
  | .fetchFailure => True
  | .timeout => True
  | .httpResponse status _ => ¬ (200 ≤ status ∧ status ≤ 299)

/-- The crawl bound invariant: page budget respected and every recorded
depth within bound. -/
def CrawlBounded (o : CrawlOptions) (s : CrawlState) : Prop :=
  s.results.length ≤ o.maxPages ∧ ∀ r ∈ s.results, r.depth ≤ o.maxDepth

/-- The no-duplicate-visit invariant: the visited set is duplicate-free,
result URLs are duplicate-free, and every result URL has been visited. -/
def CrawlNoDup (s : CrawlState) : Prop :=
  s.visited.Nodup ∧ (s.results.map (fun r => r.url)).Nodup ∧
  ∀ r ∈ s.results, r.url ∈ s.visited

/-- A four-page site in which two distinct pages both link to the same
not-yet-dequeued URL. -/
def c4Web : Web := fun u =>
  if u = str "http://s/" then some ⟨200, str "root", [str "http://s/a", str "http://s/b"]⟩
  else if u = str "http://s/a" then some ⟨200, str "a", [str "http://s/c"]⟩
  else if u = str "http://s/b" then some ⟨200, str "b", [str "http://s/c"]⟩
  else if u = str "http://s/c" then some ⟨200, str "c", []⟩
  else none

/-- Crawl options for the duplicate-enqueue scenario. -/
def c4Opts : CrawlOptions := ⟨str "http://s/", 100, 3, [], [], true⟩

/-- A one-page site used to witness the robots degradation theorem. -/
def c9Web : Web := fun u =>
  if u = str "http://t/" then some ⟨200, str "home", []⟩ else none

/-- Options for the robots degradation witness. -/
def c9Opts : CrawlOptions := ⟨str "http://t/", 10, 2, [], [], true⟩

/-! ### General lemmas about the embedded string scans -/

theorem scanGo_fuel (m : Str → Option (Str × Nat)) :
    ∀ n s, s.length ≤ n → scanGo m n s = scanGo m s.length s := by
  intro n
  induction n using Nat.strong_induction_on with
  | _ n ih =>
    intro s hs
    match n, s with
    | n, [] => cases n <;> rfl
    | 0, c :: cs => simp at hs
    | Nat.succ n, c :: cs =>
      simp only [List.length_cons, Nat.succ_le_succ_iff] at hs
      rw [show (c :: cs).length = Nat.succ cs.length from rfl]
      rw [scanGo, scanGo]
      cases hm : m (c :: cs) with
      | some rk =>
        obtain ⟨r, k⟩ := rk
        dsimp only
        have hd : (cs.drop k).length ≤ cs.length := by simp
        rw [ih n (Nat.lt_succ_self n) _ (le_trans hd hs),
            ih cs.length (Nat.lt_succ_of_le hs) _ hd]
      | none =>
        dsimp only
        rw [ih n (Nat.lt_succ_self n) _ hs,
            ih cs.length (Nat.lt_succ_of_le hs) _ (Nat.le_refl _)]

/-- Unfolding equation of `scanWith` on a nonempty string. -/
theorem scanWith_cons (m : Str → Option (Str × Nat)) (c : Char) (cs : Str) :
    scanWith m (c :: cs) =
      match m (c :: cs) with
      | some (r, k) => r ++ scanWith m (cs.drop k)
      | none => c :: scanWith m cs := by
  show scanGo m (c :: cs).length (c :: cs) = _
  rw [show (c :: cs).length = Nat.succ cs.length from rfl, scanGo]
  cases hm : m (c :: cs) with
  | some rk =>
    obtain ⟨r, k⟩ := rk
    dsimp only
    rw [scanGo_fuel m cs.length (cs.drop k) (by simp)]
    rfl
  | none =>
    dsimp only
    rw [scanGo_fuel m cs.length cs (Nat.le_refl _)]
    rfl

/-! ### Crawl-loop invariants -/

theorem crawlLoop_bounded (o : CrawlOptions) (web : Web) (dis : List Str) :
    ∀ fuel s, CrawlBounded o s → CrawlBounded o (crawlLoop o web dis fuel s) := by
  intro fuel
  induction fuel with
  | zero => intro s hs; simpa [crawlLoop] using hs
  | succ n ih =>
    intro s hs
    rw [crawlLoop]
    cases htv : s.toVisit with
    | nil => exact hs
    | cons hd rest =>
      obtain ⟨url, depth⟩ := hd
      simp only
      split
      · exact hs
      next hmax =>
        split
        · exact ih _ hs
        split
        · exact ih _ hs
        next hdep =>
          split
          · exact ih _ hs
          split
          · exact ih _ hs
          split
          next => exact ih _ hs
          next f hweb =>
            by_cases hok : 200 ≤ f.statusCode ∧ f.statusCode < 400
            · rw [if_pos hok]
              apply ih
              constructor
              · simp only [List.length_append, List.length_singleton]
                omega
              · intro r hr
                rcases List.mem_append.mp hr with h | h
                · exact hs.2 r h
                · simp only [List.mem_singleton] at h
                  subst h
                  simp only [not_lt] at hdep
                  exact hdep
            · rw [if_neg hok]
              exact ih _ hs

theorem crawlLoop_nodup (o : CrawlOptions) (web : Web) (dis : List Str) :
    ∀ fuel s, CrawlNoDup s → CrawlNoDup (crawlLoop o web dis fuel s) := by
  intro fuel
  induction fuel with
  | zero => intro s hs; simpa [crawlLoop] using hs
  | succ n ih =>
    intro s hs
    rw [crawlLoop]
    cases htv : s.toVisit with
    | nil => exact hs
    | cons hd rest =>
      obtain ⟨url, depth⟩ := hd
      simp only
      split
      · exact hs
      next hmax =>
        split
        · exact ih _ hs
        next hvis =>
          split
          · exact ih _ hs
          next hdep =>
            split
            · exact ih _ hs
            split
            · exact ih _ hs
            have hnotmem : url ∉ s.visited := by
              simpa using hvis
            have hvis' : (s.visited ++ [url]).Nodup := by
              refine List.Nodup.append hs.1 (by simp) ?_
              intro a ha hb
              simp only [List.mem_singleton] at hb
              subst hb
              exact hnotmem ha
            have hsub : ∀ r ∈ s.results, r.url ∈ s.visited ++ [url] := by
              intro r hr
              exact List.mem_append_left _ (hs.2.2 r hr)
            split
            next => exact ih _ ⟨hvis', hs.2.1, hsub⟩
            next f hweb =>
              by_cases hok : 200 ≤ f.statusCode ∧ f.statusCode < 400
              · rw [if_pos hok]
                apply ih
                refine ⟨hvis', ?_, ?_⟩
                · simp only [List.map_append, List.map_cons, List.map_nil]
                  refine List.Nodup.append hs.2.1 (by simp) ?_
                  intro a ha hb
                  simp only [List.mem_singleton] at hb
                  subst hb
                  rcases List.mem_map.mp ha with ⟨r, hr, hru⟩
                  exact hnotmem (hru ▸ hs.2.2 r hr)
                · intro r hr
                  rcases List.mem_append.mp hr with h | h
                  · exact hsub r h
                  · simp only [List.mem_singleton] at h
                    subst h
                    simp
              · rw [if_neg hok]
                exact ih _ ⟨hvis', hs.2.1, hsub⟩

/-- Amended C4.  The crawler never visits the same URL twice: the URLs of
the returned page records are pairwise distinct (duplicates that transiently
enter the pending queue are discarded at dequeue time). -/
theorem c4_amended_no_duplicate_visits (o : CrawlOptions) (web : Web)
    (robots : RobotsOutcome) (fuel : Nat) :
    ((crawlWebsite o web robots fuel).map (fun r => r.url)).Nodup := by
  have h := crawlLoop_nodup o web
    (if o.respectRobotsTxt then fetchRobotsTxt robots else []) fuel
    (initialCrawlState o) (by refine ⟨by simp [initialCrawlState], by simp [initialCrawlState], by simp [initialCrawlState]⟩)
  exact h.2.1

/-- C4 counterexample.  After three iterations of the crawl loop the pending
queue holds the URL `http://s/c` twice: the admission check at enqueue time
only consults the visited set, so two crawled pages that both link to a
not-yet-dequeued URL enqueue it twice. -/
theorem c4_counterexample :
    ¬ (((crawlLoop c4Opts c4Web [] 3 (initialCrawlState c4Opts)).toVisit.map
        Prod.fst).Nodup) := by
  decide

/-- C5.  The repository's own DOM-context extractor emits positional
segments of the form `li:nth-of-type(2)`, and the code's comment says these
positional qualifiers are removed — but the `:`-digit pattern of the code
never matches them (the colon is followed by letters), so the qualifier
survives into the selector pattern, contradicting the documented behavior;
the pattern only strips colon-digit forms such as `c:2`, which nothing in
the repository produces. -/
theorem c5_positional_qualifier_not_stripped :
    selectorPattern (str "html > body > ul > li:nth-of-type(2)") =
      str "body > ul > li:nth-of-type(2)" ∧
    selectorPattern (str "html > body > ul > li:nth-of-type(2)") ≠
      str "body > ul > li" ∧
    selectorPattern (str "a > b > c:2") = str "a > b > c" := by
  decide

/-- C9.  A robots.txt fetch failure, timeout or non-2xx response yields an
empty disallow list, and the crawl then behaves exactly as if robots.txt had
been fetched successfully with no `Disallow` directives. -/
theorem c9_robots_degradation (r : RobotsOutcome) (h : robotsFailed r) :
    fetchRobotsTxt r = [] ∧
    ∀ (o : CrawlOptions) (web : Web) (fuel : Nat),
      crawlWebsite o web r fuel = crawlWebsite o web (.httpResponse 200 []) fuel := by
  have hr : fetchRobotsTxt r = [] := by
    cases r with
    | fetchFailure => rfl
    | timeout => rfl
    | httpResponse status body =>
      simp only [robotsFailed] at h
      simp only [fetchRobotsTxt]
      rw [if_neg h]
  refine ⟨hr, ?_⟩
  intro o web fuel
  unfold crawlWebsite
  rw [hr]
  have h200 : fetchRobotsTxt (.httpResponse 200 []) = [] := by decide
  rw [h200]

/-- Witness for C9 at a concrete timed-out robots fetch. -/
theorem c9_robots_degradation_witness :
    fetchRobotsTxt RobotsOutcome.timeout = [] ∧
    crawlWebsite c9Opts c9Web RobotsOutcome.timeout 5 =
      crawlWebsite c9Opts c9Web (.httpResponse 200 []) 5 := by
  have h := c9_robots_degradation RobotsOutcome.timeout trivial
  exact ⟨h.1, h.2 c9Opts c9Web 5⟩

/-- C7.  For every crawl input — any link graph, any `maxPages` and
`maxDepth` — the result list of `crawlWebsite` has at most `maxPages`
records and every record's depth is at most `maxDepth`. -/
theorem c7_crawl_bound (o : CrawlOptions) (web : Web) (robots : RobotsOutcome)
    (fuel : Nat) :
    (crawlWebsite o web robots fuel).length ≤ o.maxPages ∧
    ∀ r ∈ crawlWebsite o web robots fuel, r.depth ≤ o.maxDepth := by
  have h := crawlLoop_bounded o web
    (if o.respectRobotsTxt then fetchRobotsTxt robots else []) fuel
    (initialCrawlState o) (by constructor <;> simp [initialCrawlState])
  exact ⟨h.1, h.2⟩

/-! ### Group-map invariants -/

theorem pushOcc_signature (url : Str) (v : ViolationWithContext) (g : ViolationGroup) :
    (pushOccurrence url v g).signature = g.signature := rfl

theorem pushOcc_total (url : Str) (v : ViolationWithContext) (g : ViolationGroup) :
    (pushOccurrence url v g).totalOccurrences = g.totalOccurrences + 1 := rfl

theorem pushOcc_occurrences (url : Str) (v : ViolationWithContext) (g : ViolationGroup) :
    (pushOccurrence url v g).occurrences =
      g.occurrences ++ [⟨url, v.context.cssSelector, v.html⟩] := rfl

theorem keys_of_condMap (m : GroupMap) (sig : Str) (f : ViolationGroup → ViolationGroup) :
    ((m.map (fun p => if p.1 = sig then (p.1, f p.2) else p)).map Prod.fst) =
      m.map Prod.fst := by
  rw [List.map_map]
  apply List.map_congr_left
  intro p _
  by_cases h : p.1 = sig <;> simp [h]

theorem mapKeys_addViolation (url : Str) (v : ViolationWithContext) (m : GroupMap) :
    mapKeys (addViolation url v m) =
      if m.any (fun p => p.1 = createViolationSignature v) then mapKeys m
      else mapKeys m ++ [createViolationSignature v] := by
  cases hany : m.any (fun p => p.1 = createViolationSignature v) with
  | true =>
    simp only [addViolation, hany, if_true]
    exact keys_of_condMap m _ _
  | false =>
    simp only [addViolation, hany, if_false, Bool.false_eq_true]
    unfold mapKeys
    rw [keys_of_condMap (m ++ [(createViolationSignature v,
      freshGroup (createViolationSignature v) v)]) _ _, List.map_append]
    rfl

theorem goodMap_addViolation (url : Str) (v : ViolationWithContext) (m : GroupMap)
    (hm : GoodMap m) : GoodMap (addViolation url v m) := by
  obtain ⟨hk, hp⟩ := hm
  constructor
  · show (mapKeys (addViolation url v m)).Nodup
    rw [mapKeys_addViolation]
    cases hany : m.any (fun p => p.1 = createViolationSignature v) with
    | true => simpa using hk
    | false =>
      simp only [Bool.false_eq_true, if_false]
      refine List.Nodup.append hk (by simp) ?_
      intro a ha hb
      simp only [List.mem_singleton] at hb
      subst hb
      rcases List.mem_map.mp ha with ⟨p, hpm, hfst⟩
      rw [List.any_eq_false] at hany
      exact hany p hpm (by simpa using hfst)
  · intro q hq
    unfold addViolation at hq
    rcases List.mem_map.mp hq with ⟨p, hpm1, rfl⟩
    have hm1 : p ∈ m ∨ p = (createViolationSignature v,
        freshGroup (createViolationSignature v) v) := by
      by_cases hany : m.any (fun p => p.1 = createViolationSignature v)
      · simp only [if_pos hany] at hpm1; exact Or.inl hpm1
      · simp only [if_neg hany] at hpm1
        rcases List.mem_append.mp hpm1 with h | h
        · exact Or.inl h
        · simp only [List.mem_singleton] at h; exact Or.inr h
    by_cases h : p.1 = createViolationSignature v
    · simp only [h, if_true]
      rcases hm1 with hmem | rfl
      · obtain ⟨h1, h2, _⟩ := hp p hmem

        refine ⟨?_, ?_, ?_⟩
        · rw [pushOcc_signature]; exact h1.trans h
        · rw [pushOcc_total, pushOcc_occurrences, h2, List.length_append,
            List.length_singleton]
        · rw [pushOcc_total]; omega
      · refine ⟨rfl, ?_, ?_⟩
        · rw [pushOcc_total, pushOcc_occurrences]
          simp [freshGroup]
        · rw [pushOcc_total]; omega
    · simp only [h, if_false]
      rcases hm1 with hmem | rfl
      · exact hp p hmem
      · exact absurd rfl h

theorem keyTotals_condMap (m : GroupMap) (url : Str) (v : ViolationWithContext)
    (sig : Str) :
    keyTotals (m.map (fun p => if p.1 = sig then (p.1, pushOccurrence url v p.2) else p)) =
      (keyTotals m).map (fun q => if q.1 = sig then (q.1, q.2 + 1) else q) := by
  unfold keyTotals
  rw [List.map_map, List.map_map]
  apply List.map_congr_left
  intro p _
  by_cases h : p.1 = sig <;> simp [h, pushOcc_total]

theorem any_keyTotals (m : GroupMap) (sig : Str) :
    (keyTotals m).any (fun q => q.1 = sig) = m.any (fun p => p.1 = sig) := by
  unfold keyTotals
  induction m with
  | nil => rfl
  | cons p ps ih => simp only [List.map_cons, List.any_cons, ih]

theorem keyTotals_addViolation (url : Str) (v : ViolationWithContext) (m : GroupMap) :
    keyTotals (addViolation url v m) = bump (createViolationSignature v) (keyTotals m) := by
  unfold bump
  rw [any_keyTotals]
  cases hany : m.any (fun p => p.1 = createViolationSignature v) with
  | true =>
    simp only [if_true]
    unfold addViolation
    simp only [hany, if_true]
    exact keyTotals_condMap m url v _
  | false =>
    simp only [Bool.false_eq_true, if_false]
    unfold addViolation
    simp only [hany, Bool.false_eq_true, if_false]
    rw [keyTotals_condMap (m ++ [(createViolationSignature v,
      freshGroup (createViolationSignature v) v)]) url v (createViolationSignature v)]
    unfold keyTotals
    rw [List.map_append, List.map_append]
    congr 1
    · rw [List.map_map]
      apply List.map_congr_left
      intro p hpm
      rw [List.any_eq_false] at hany
      have : ¬ p.1 = createViolationSignature v := by simpa using hany p hpm
      simp [this]
    · simp [freshGroup, pushOcc_total]

theorem foldl_entries_eq (entries : List (Str × List ViolationWithContext)) :
    ∀ acc : GroupMap,
      entries.foldl (fun acc e => e.2.foldl (fun a v => addViolation e.1 v a) acc) acc =
        (instancesOf entries).foldl addInst acc := by
  induction entries with
  | nil => intro acc; rfl
  | cons e es ih =>
    intro acc
    show es.foldl _ (e.2.foldl _ acc) = _
    rw [show instancesOf (e :: es) =
      (e.2.map (fun v => (e.1, v))) ++ instancesOf es from rfl]
    rw [List.foldl_append, List.foldl_map]
    exact ih _

theorem buildGroups_eq_fold (entries : List (Str × List ViolationWithContext)) :
    buildGroups entries = (instancesOf entries).foldl addInst [] :=
  foldl_entries_eq entries []

theorem goodMap_nil : GoodMap [] := by
  constructor
  · simp
  · intro p hp; simp at hp

theorem goodMap_fold (l : List (Str × ViolationWithContext)) :
    ∀ m, GoodMap m → GoodMap (l.foldl addInst m) := by
  induction l with
  | nil => intro m hm; exact hm
  | cons p ps ih =>
    intro m hm
    exact ih _ (goodMap_addViolation p.1 p.2 m hm)

theorem keyTotals_fold (l : List (Str × ViolationWithContext)) :
    ∀ m, keyTotals (l.foldl addInst m) =
      (l.map sigOf).foldl (fun kt s => bump s kt) (keyTotals m) := by
  induction l with
  | nil => intro m; rfl
  | cons p ps ih =>
    intro m
    show keyTotals (ps.foldl addInst (addInst m p)) = _
    rw [ih (addInst m p)]
    rw [show keyTotals (addInst m p) = bump (sigOf p) (keyTotals m) from
      keyTotals_addViolation p.1 p.2 m]
    rfl

theorem bump_keys (s : Str) (kt : List (Str × Nat)) :
    (bump s kt).map Prod.fst =
      if kt.any (fun q => q.1 = s) then kt.map Prod.fst
      else kt.map Prod.fst ++ [s] := by
  unfold bump
  cases hany : kt.any (fun q => q.1 = s) with
  | true =>
    simp only [if_true]
    rw [List.map_map]
    apply List.map_congr_left
    intro q _
    by_cases h : q.1 = s <;> simp [h]
  | false =>
    simp only [Bool.false_eq_true, if_false, List.map_append]
    rfl

theorem bump_keys_nodup (s : Str) (kt : List (Str × Nat))
    (h : (kt.map Prod.fst).Nodup) : ((bump s kt).map Prod.fst).Nodup := by
  rw [bump_keys]
  cases hany : kt.any (fun q => q.1 = s) with
  | true => simpa using h
  | false =>
    simp only [Bool.false_eq_true, if_false]
    refine List.Nodup.append h (by simp) ?_
    intro a ha hb
    simp only [List.mem_singleton] at hb
    subst hb
    rcases List.mem_map.mp ha with ⟨q, hq, hfst⟩
    rw [List.any_eq_false] at hany
    exact hany q hq (by simpa using hfst)

theorem sum_bump (s : Str) (kt : List (Str × Nat))
    (hnd : (kt.map Prod.fst).Nodup) :
    ((bump s kt).map Prod.snd).sum = (kt.map Prod.snd).sum + 1 := by
  unfold bump
  cases hany : kt.any (fun q => q.1 = s) with
  | false => simp
  | true =>
    simp only [if_true]
    induction kt with
    | nil => simp at hany
    | cons q qs ih =>
      simp only [List.map_cons, List.nodup_cons] at hnd
      by_cases hq : q.1 = s
      · have hqs : qs.map (fun q => if q.1 = s then (q.1, q.2 + 1) else q) = qs := by
          have hcg : ∀ r ∈ qs, (if r.1 = s then (r.1, r.2 + 1) else r) = id r := by
            intro r hr
            have : ¬ r.1 = s := by
              intro hrs
              apply hnd.1
              have : r.1 ∈ List.map Prod.fst qs := List.mem_map_of_mem Prod.fst hr
              rwa [hrs, ← hq] at this
            simp [this]
          rw [List.map_congr_left hcg, List.map_id]
        simp only [List.map_cons, hq, if_true, hqs, List.map_cons, List.sum_cons]
        omega
      · have hany' : qs.any (fun q => q.1 = s) = true := by
          simp only [List.any_cons] at hany
          rcases Bool.or_eq_true_iff.mp hany with h | h
          · exact absurd (by simpa using h) hq
          · exact h
        simp only [List.map_cons, hq, if_false, List.map_cons, List.sum_cons]
        rw [ih hnd.2 hany']
        omega

theorem sum_bumpFold (sigs : List Str) :
    ∀ kt, (kt.map Prod.fst).Nodup →
      ((sigs.foldl (fun kt s => bump s kt) kt).map Prod.snd).sum =
        (kt.map Prod.snd).sum + sigs.length := by
  induction sigs with
  | nil => intro kt _; simp
  | cons s ss ih =>
    intro kt hnd
    show ((ss.foldl _ (bump s kt)).map Prod.snd).sum = _
    rw [ih (bump s kt) (bump_keys_nodup s kt hnd), sum_bump s kt hnd]
    simp only [List.length_cons]
    omega

theorem insertLe_perm {α : Type} (le : α → α → Bool) (x : α) (l : List α) :
    (insertLe le x l).Perm (x :: l) := by
  induction l with
  | nil => exact List.Perm.refl _
  | cons y ys ih =>
    unfold insertLe
    by_cases h : le x y ∧ ¬ le y x
    · rw [if_pos h]
    · rw [if_neg h]
      exact (List.Perm.cons y ih).trans (List.Perm.swap x y ys)

theorem sortByLe_perm {α : Type} (le : α → α → Bool) (l : List α) :
    (sortByLe le l).Perm l := by
  have key : ∀ (l : List α) (acc : List α),
      (l.foldl (fun acc x => insertLe le x acc) acc).Perm (acc ++ l) := by
    intro l
    induction l with
    | nil => intro acc; simp
    | cons x xs ih =>
      intro acc
      show (xs.foldl _ (insertLe le x acc)).Perm _
      refine (ih (insertLe le x acc)).trans ?_
      refine (List.Perm.append_right xs (insertLe_perm le x acc)).trans ?_
      exact List.perm_middle.symm
  simpa using key l []

theorem values_totals (m : GroupMap) :
    ((m.map Prod.snd).map (fun g => g.totalOccurrences)).sum =
      ((keyTotals m).map Prod.snd).sum := by
  unfold keyTotals
  rw [List.map_map, List.map_map]
  rfl

theorem length_instancesOf (entries : List (Str × List ViolationWithContext)) :
    (instancesOf entries).length = totalInstances entries := by
  unfold instancesOf totalInstances
  rw [List.length_flatMap]
  congr 1
  apply List.map_congr_left
  intro e _
  simp

/-- C8.  No violation instance is ever dropped: the total occurrence count
over all returned groups equals the number of input instances, and an
instance whose normalized HTML has no parseable opening tag gets the
fallback signature hashed from the rule id and the first 100 characters of
the normalized HTML rather than being discarded. -/
theorem c8_no_instance_dropped (entries : List (Str × List ViolationWithContext))
    (v : ViolationWithContext)
    (h : parseOpeningTag (normalizeHtml v.html) = none) :
    ((groupViolations entries).map (fun g => g.totalOccurrences)).sum =
      totalInstances entries ∧
    createViolationSignature v =
      md5 (v.ruleId ++ str ":" ++ (normalizeHtml v.html).take 100) := by
  constructor
  · have hperm := sortByLe_perm groupLe ((buildGroups entries).map Prod.snd)
    rw [groupViolations]
    rw [List.Perm.sum_eq (List.Perm.map (fun g => g.totalOccurrences) hperm)]
    rw [values_totals, buildGroups_eq_fold, keyTotals_fold, sum_bumpFold _ _ (by simp [keyTotals])]
    rw [show keyTotals ([] : GroupMap) = [] from rfl]
    simp only [List.map_nil, List.sum_nil, List.length_map, Nat.zero_add]
    exact length_instancesOf entries
  · unfold createViolationSignature
    dsimp only
    rw [h]

/-- C10.  Every group returned by `groupViolations` satisfies
`totalOccurrences = occurrences.length` and `totalOccurrences ≥ 1`:
the counter and the occurrence list are updated together for every
instance, so they can never disagree. -/
theorem c10_counter_matches_occurrences
    (entries : List (Str × List ViolationWithContext)) (g : ViolationGroup)
    (hg : g ∈ groupViolations entries) :
    g.totalOccurrences = g.occurrences.length ∧ 1 ≤ g.totalOccurrences := by
  have hperm := sortByLe_perm groupLe ((buildGroups entries).map Prod.snd)
  rw [groupViolations] at hg
  have hmem : g ∈ (buildGroups entries).map Prod.snd := hperm.mem_iff.mp hg
  rcases List.mem_map.mp hmem with ⟨p, hp, rfl⟩
  have hgood : GoodMap (buildGroups entries) := by
    rw [buildGroups_eq_fold]
    exact goodMap_fold _ [] goodMap_nil
  obtain ⟨_, h2, h3⟩ := hgood.2 p hp
  exact ⟨h2, h3⟩

/-- Witness for C8: a concrete unparseable instance keeps its fallback
signature and the occurrence totals add up. -/
theorem c8_no_instance_dropped_witness :
    parseOpeningTag (normalizeHtml c8badV.html) = none ∧
    (((groupViolations c8entries).map (fun g => g.totalOccurrences)).sum =
        totalInstances c8entries ∧
      createViolationSignature c8badV =
        md5 (c8badV.ruleId ++ str ":" ++ (normalizeHtml c8badV.html).take 100)) :=
  ⟨by decide, c8_no_instance_dropped c8entries c8badV (by decide)⟩

/-- Witness for C10 on a concrete two-page input. -/
theorem c10_counter_matches_occurrences_witness :
    c10g ∈ groupViolations c10entries ∧
    (c10g.totalOccurrences = c10g.occurrences.length ∧ 1 ≤ c10g.totalOccurrences) :=
  ⟨by decide, c10_counter_matches_occurrences c10entries c10g (by decide)⟩

/-! ### Permutation invariance of the signature-count multiset -/

theorem any_perm {α : Type} {l1 l2 : List α} (h : l1.Perm l2) (p : α → Bool) :
    l1.any p = l2.any p := by
  cases hc : l2.any p with
  | true =>
    rcases List.any_eq_true.mp hc with ⟨x, hx, hpx⟩
    exact List.any_eq_true.mpr ⟨x, h.mem_iff.mpr hx, hpx⟩
  | false =>
    rw [List.any_eq_false] at hc
    exact List.any_eq_false.mpr fun x hx => hc x (h.mem_iff.mp hx)

theorem bump_perm (s : Str) {kt1 kt2 : List (Str × Nat)} (h : kt1.Perm kt2) :
    (bump s kt1).Perm (bump s kt2) := by
  unfold bump
  rw [any_perm h]
  cases hc : kt2.any (fun q => q.1 = s) with
  | true => exact h.map _
  | false => exact h.append_right _

theorem any_fst_map_inc (s t : Str) (kt : List (Str × Nat)) :
    ((kt.map (fun q => if q.1 = s then (q.1, q.2 + 1) else q)).any
      (fun q => q.1 = t)) = kt.any (fun q => q.1 = t) := by
  induction kt with
  | nil => rfl
  | cons q qs ih =>
    simp only [List.map_cons, List.any_cons, ih]
    by_cases hq : q.1 = s <;> simp [hq]

theorem bump_any_ne (s t : Str) (hne : t ≠ s) (kt : List (Str × Nat)) :
    (bump s kt).any (fun q => q.1 = t) = kt.any (fun q => q.1 = t) := by
  unfold bump
  cases hc : kt.any (fun q => q.1 = s) with
  | true =>
    simp only [if_true]
    exact any_fst_map_inc s t kt
  | false =>
    simp only [Bool.false_eq_true, if_false, List.any_append]
    have : ([(s, 1)].any (fun q => q.1 = t)) = false := by
      simp [Ne.symm hne]
    rw [this, Bool.or_false]


theorem bump_pos (s : Str) (kt : List (Str × Nat))
    (h : kt.any (fun q => q.1 = s) = true) :
    bump s kt = kt.map (fun q => if q.1 = s then (q.1, q.2 + 1) else q) := by
  unfold bump
  rw [h]
  rfl

theorem bump_neg (s : Str) (kt : List (Str × Nat))
    (h : kt.any (fun q => q.1 = s) = false) :
    bump s kt = kt ++ [(s, 1)] := by
  unfold bump
  rw [h]
  rfl

theorem bump_swap_aux (s1 s2 : Str) (kt : List (Str × Nat)) (hss : s1 ≠ s2)
    (h1 : kt.any (fun q => q.1 = s1) = true)
    (h2 : kt.any (fun q => q.1 = s2) = false) :
    bump s1 (bump s2 kt) = bump s2 (bump s1 kt) := by
  rw [bump_neg s2 kt h2, bump_pos s1 kt h1]
  rw [bump_pos s1 (kt ++ [(s2, 1)]) (by rw [List.any_append, h1]; rfl)]
  rw [bump_neg s2 (kt.map (fun q => if q.1 = s1 then (q.1, q.2 + 1) else q))
    (by rw [any_fst_map_inc]; exact h2)]
  rw [List.map_append]
  congr 1
  have : ¬ s2 = s1 := fun h => hss h.symm
  simp [this]

theorem bump_swap (s1 s2 : Str) (kt : List (Str × Nat)) :
    (bump s1 (bump s2 kt)).Perm (bump s2 (bump s1 kt)) := by
  by_cases hss : s1 = s2
  · subst hss; exact List.Perm.refl _
  cases h1 : kt.any (fun q => q.1 = s1) with
  | true =>
    cases h2 : kt.any (fun q => q.1 = s2) with
    | true =>
      apply List.Perm.of_eq
      rw [bump_pos s2 kt h2, bump_pos s1 kt h1]
      rw [bump_pos s1 _ (by rw [any_fst_map_inc]; exact h1)]
      rw [bump_pos s2 _ (by rw [any_fst_map_inc]; exact h2)]
      rw [List.map_map, List.map_map]
      apply List.map_congr_left
      intro q _
      by_cases e1 : q.1 = s1
      · by_cases e2 : q.1 = s2
        · exact absurd (e1.symm.trans e2) hss
        · simp [e1, e2, hss, Ne.symm hss, Function.comp]
      · by_cases e2 : q.1 = s2
        · simp [e1, e2, hss, Ne.symm hss, Function.comp]
        · simp [e1, e2, Function.comp]
    | false =>
      exact List.Perm.of_eq (bump_swap_aux s1 s2 kt hss h1 h2)
  | false =>
    cases h2 : kt.any (fun q => q.1 = s2) with
    | true =>
      exact (List.Perm.of_eq (bump_swap_aux s2 s1 kt (fun h => hss h.symm) h2 h1)).symm
    | false =>
      have hs21 : ¬ s2 = s1 := fun h => hss h.symm
      rw [bump_neg s2 kt h2, bump_neg s1 kt h1]
      rw [bump_neg s1 (kt ++ [(s2, 1)])
        (by rw [List.any_append, h1]; simp [hs21])]
      rw [bump_neg s2 (kt ++ [(s1, 1)])
        (by rw [List.any_append, h2]; simp [hss])]
      rw [List.append_assoc, List.append_assoc]
      exact List.Perm.append_left kt (List.Perm.swap _ _ _)

theorem bumpFold_congr (l : List Str) :
    ∀ {kt1 kt2 : List (Str × Nat)}, kt1.Perm kt2 →
      (l.foldl (fun kt s => bump s kt) kt1).Perm
        (l.foldl (fun kt s => bump s kt) kt2) := by
  induction l with
  | nil => intro kt1 kt2 h; exact h
  | cons s ss ih => intro kt1 kt2 h; exact ih (bump_perm s h)

theorem bumpFold_perm {l1 l2 : List Str} (h : l1.Perm l2) :
    ∀ kt, (l1.foldl (fun kt s => bump s kt) kt).Perm
      (l2.foldl (fun kt s => bump s kt) kt) := by
  induction h with
  | nil => intro kt; exact List.Perm.refl _
  | cons x _ ih => intro kt; exact ih (bump x kt)
  | swap x y l => intro kt; exact bumpFold_congr l (bump_swap x y kt)
  | trans _ _ ih1 ih2 => intro kt; exact (ih1 kt).trans (ih2 kt)

theorem map_sig_total_eq_keyTotals (m : GroupMap) (hgood : GoodMap m) :
    ((m.map Prod.snd).map (fun g => (g.signature, g.totalOccurrences))) =
      keyTotals m := by
  unfold keyTotals
  rw [List.map_map]
  apply List.map_congr_left
  intro p hp
  have := (hgood.2 p hp).1
  simp [Function.comp, this]

theorem groupViolations_sig_totals (e : List (Str × List ViolationWithContext)) :
    ((groupViolations e).map (fun g => (g.signature, g.totalOccurrences))).Perm
      (((instancesOf e).map sigOf).foldl (fun kt s => bump s kt) []) := by
  have hgood : GoodMap (buildGroups e) := by
    rw [buildGroups_eq_fold]; exact goodMap_fold _ [] goodMap_nil
  refine (List.Perm.map _ (sortByLe_perm groupLe _)).trans ?_
  rw [map_sig_total_eq_keyTotals _ hgood, buildGroups_eq_fold, keyTotals_fold]
  exact List.Perm.refl _

/-- Amended C3.  `groupViolations` is iteration-order independent only up to
the signature-count multiset: permuting the input entries permutes the
(signature, totalOccurrences) pairs of the output.  Representative fields,
occurrence order and the order of sort ties follow first-seen order and do
change with iteration order. -/
theorem c3_amended_signature_multiset_stable
    (e1 e2 : List (Str × List ViolationWithContext)) (h : e1.Perm e2) :
    ((groupViolations e1).map (fun g => (g.signature, g.totalOccurrences))).Perm
      ((groupViolations e2).map (fun g => (g.signature, g.totalOccurrences))) := by
  refine (groupViolations_sig_totals e1).trans
    (List.Perm.trans ?_ (groupViolations_sig_totals e2).symm)
  exact bumpFold_perm (List.Perm.map sigOf (List.Perm.flatMap_right _ h)) []

/-- C3 counterexample.  Two inputs with the same entries in different
iteration orders produce observably different outputs: the representative
`exampleHtml` of the single group is the first-seen instance's HTML, so it
differs between the two orders — `groupViolations` is not deterministic
regardless of map iteration order. -/
theorem c3_counterexample :
    c3e1.Perm c3e2 ∧
    (groupViolations c3e1).map (fun g => g.exampleHtml) ≠
      (groupViolations c3e2).map (fun g => g.exampleHtml) := by
  decide

/-- Witness for the amended C3 on the concrete permuted inputs. -/
theorem c3_amended_signature_multiset_stable_witness :
    c3e1.Perm c3e2 ∧
    ((groupViolations c3e1).map (fun g => (g.signature, g.totalOccurrences))).Perm
      ((groupViolations c3e2).map (fun g => (g.signature, g.totalOccurrences))) :=
  ⟨by decide, c3_amended_signature_multiset_stable c3e1 c3e2 (by decide)⟩

/-! ### Reconciliation lemmas -/

theorem find?_first {α : Type} (p : α → Bool) :
    ∀ (l : List α) (a : α), l.find? p = some a →
      p a = true ∧ ∃ pre post, l = pre ++ a :: post ∧ ∀ j ∈ pre, p j = false := by
  intro l
  induction l with
  | nil => intro a h; simp at h
  | cons x xs ih =>
    intro a h
    cases hp : p x with
    | true =>
      rw [List.find?_cons_of_pos _ hp] at h
      obtain rfl : x = a := by simpa using h
      exact ⟨hp, [], xs, rfl, by simp⟩
    | false =>
      rw [List.find?_cons_of_neg _ (by simp [hp])] at h
      obtain ⟨hpa, pre, post, rfl, hpre⟩ := ih a h
      refine ⟨hpa, x :: pre, post, rfl, ?_⟩
      intro j hj
      rcases List.mem_cons.mp hj with rfl | hj
      · exact hp
      · exact hpre j hj

theorem updateIssue_action (n : Nat) (g : ViolationGroup) (t : Tracker) :
    (updateIssue n g t).1.action = IssueAction.updated := rfl

theorem createIssue_action (g : ViolationGroup) (t : Tracker) :
    (createIssue g t).1.action = IssueAction.created := rfl

theorem sync_fold_actions (existing : List TrackedIssue)
    (groups : List ViolationGroup) :
    ∀ (rs : List IssueResult) (t : Tracker),
      ((groups.foldl (syncStep existing) (rs, t)).1).map (fun r => r.action) =
        rs.map (fun r => r.action) ++
          groups.map (fun g =>
            if (findMatchingIssue g existing).isSome then IssueAction.updated
            else IssueAction.created) := by
  induction groups with
  | nil => intro rs t; simp
  | cons g gs ih =>
    intro rs t
    show ((gs.foldl (syncStep existing) (syncStep existing (rs, t) g)).1).map _ = _
    cases hf : findMatchingIssue g existing with
    | some i =>
      have hstep : syncStep existing (rs, t) g =
          (rs ++ [(updateIssue i.number g t).1], (updateIssue i.number g t).2) := by
        simp [syncStep, hf]
      rw [hstep, ih]
      simp [hf, updateIssue_action]
    | none =>
      have hstep : syncStep existing (rs, t) g =
          (rs ++ [(createIssue g t).1], (createIssue g t).2) := by
        simp [syncStep, hf]
      rw [hstep, ih]
      simp [hf, createIssue_action]

theorem syncIssues_actions (groups : List ViolationGroup) (t : Tracker) :
    (syncIssues groups t).1.map (fun r => r.action) =
      groups.map (fun g =>
        if (findMatchingIssue g (getExistingA11yIssues t)).isSome then
          IssueAction.updated
        else IssueAction.created) := by
  show ((groups.foldl (syncStep (getExistingA11yIssues t)) ([], t)).1).map _ = _
  rw [sync_fold_actions]
  simp

/-- Amended C6.  A new issue is created for a group exactly when no open
issue matches it, where an issue matches if its body contains the group's
own signature token or — even when a different token is embedded in its
body — its title contains the rule id; matching is first-match-wins over
the snapshot in tracker order. -/
theorem c6_amended_match_and_create (g : ViolationGroup)
    (issues : List TrackedIssue) (groups : List ViolationGroup) (t : Tracker) :
    (findMatchingIssue g issues = none ↔
      ∀ i ∈ issues, includes i.body (sigToken g.signature) = false ∧
        includes i.title g.ruleId = false) ∧
    (∀ i, findMatchingIssue g issues = some i →
      issueMatches g i = true ∧
      ∃ pre post, issues = pre ++ i :: post ∧
        ∀ j ∈ pre, issueMatches g j = false) ∧
    ((syncIssues groups t).1.map (fun r => r.action) =
      groups.map (fun g =>
        if (findMatchingIssue g (getExistingA11yIssues t)).isSome then
          IssueAction.updated
        else IssueAction.created)) := by
  refine ⟨?_, ?_, syncIssues_actions groups t⟩
  · rw [show findMatchingIssue g issues = issues.find? (issueMatches g) from rfl,
      List.find?_eq_none]
    constructor
    · intro h i hi
      have := h i hi
      unfold issueMatches at this
      constructor
      · cases hc : includes i.body (sigToken g.signature) with
        | true => exact absurd (by rw [hc]; simp) this
        | false => rfl
      · cases hc : includes i.title g.ruleId with
        | true => exact absurd (by rw [hc]; simp) this
        | false => rfl
    · intro h i hi
      obtain ⟨h1, h2⟩ := h i hi
      unfold issueMatches
      rw [h1, h2]
      simp
  · intro i hf
    exact find?_first (issueMatches g) issues i hf

/-- Witness for the amended C6: the concrete tracker's single issue is the
first match and no creation happens. -/
theorem c6_amended_match_and_create_witness :
    (findMatchingIssue c6Group [c6Issue] = none ↔
      ∀ i ∈ [c6Issue],
        includes i.body (sigToken c6Group.signature) = false ∧
        includes i.title c6Group.ruleId = false) ∧
    (∀ i, findMatchingIssue c6Group [c6Issue] = some i →
      issueMatches c6Group i = true ∧
      ∃ pre post, [c6Issue] = pre ++ i :: post ∧
        ∀ j ∈ pre, issueMatches c6Group j = false) ∧
    ((syncIssues [c6Group] c6Tracker).1.map (fun r => r.action) =
      [c6Group].map (fun g =>
        if (findMatchingIssue g (getExistingA11yIssues c6Tracker)).isSome then
          IssueAction.updated
        else IssueAction.created)) :=
  c6_amended_match_and_create c6Group [c6Issue] [c6Group] c6Tracker

/-- C6 counterexample.  The snapshot's only issue embeds a (different)
signature token, and no open issue carries the group's signature; the claim
would then forbid the title fallback and demand a creation, but the code
matches the issue by title and reports an update, creating nothing. -/
theorem c6_counterexample :
    extractSignature c6Issue.body = some (str "sigX") ∧
    includes c6Issue.body (sigToken c6Group.signature) = false ∧
    findMatchingIssue c6Group [c6Issue] = some c6Issue ∧
    (syncIssues [c6Group] c6Tracker).1.map (fun r => r.action) =
      [IssueAction.updated] := by
  decide

theorem extractSigAt_decomp (s cap : Str) (h : extractSigAt s = some cap) :
    ∃ post, s = sigToken cap ++ post := by
  unfold extractSigAt at h
  dsimp only at h
  split at h
  case isTrue hpre =>
    obtain ⟨t, ht⟩ := (List.isPrefixOf_iff_prefix.mp hpre)
    split at h
    case isTrue hg =>
      obtain ⟨hcap, hhead⟩ := hg
      simp only [Option.some.injEq] at h
      subst h
      have hdrop : s.drop (str "Signature: `").length = t := by
        rw [← ht, List.drop_left]
      rw [hdrop] at hhead ⊢
      set w := t.takeWhile (fun c => c ≠ '`') with hw
      have hsplit : w ++ t.drop w.length = t := by
        obtain ⟨r, hr⟩ := (List.takeWhile_prefix (l := t) (fun c => c ≠ '`'))
        rw [← hw] at hr
        have : t.drop w.length = r := by rw [← hr, List.drop_left]
        rw [this, hr]
      rcases hd : t.drop w.length with _ | ⟨a, d⟩
      · rw [hd] at hhead; simp at hhead
      · rw [hd] at hhead
        simp only [List.head?_cons, Option.some.injEq] at hhead
        subst hhead
        refine ⟨d, ?_⟩
        rw [← ht]
        unfold sigToken
        rw [List.append_assoc, List.append_assoc]
        congr 1
        rw [← hsplit, hd]
        rfl
    case isFalse => simp at h
  case isFalse => simp at h

theorem extractSignature_decomp :
    ∀ (s cap : Str), extractSignature s = some cap →
      ∃ pre post, s = pre ++ sigToken cap ++ post := by
  intro s
  induction s with
  | nil => intro cap h; simp [extractSignature] at h
  | cons c cs ih =>
    intro cap h
    rw [extractSignature] at h
    cases hat : extractSigAt (c :: cs) with
    | some cap' =>
      rw [hat] at h
      simp only [Option.some.injEq] at h
      subst h
      obtain ⟨post, hpost⟩ := extractSigAt_decomp (c :: cs) cap' hat
      exact ⟨[], post, by simpa using hpost⟩
    | none =>
      rw [hat] at h
      obtain ⟨pre, post, hpp⟩ := ih cap h
      exact ⟨c :: pre, post, by simp [hpp]⟩

theorem includes_of_decomp (pat : Str) :
    ∀ (pre post : Str), includes (pre ++ pat ++ post) pat = true := by
  intro pre
  induction pre with
  | nil =>
    intro post
    simp only [List.nil_append]
    cases pat with
    | nil =>
      cases post with
      | nil => rfl
      | cons a l =>
        show includes (a :: l) [] = true
        unfold includes
        simp [List.isPrefixOf]
    | cons b bs =>
      have hpre : (b :: bs).isPrefixOf ((b :: bs) ++ post) = true :=
        List.isPrefixOf_iff_prefix.mpr (List.prefix_append _ _)
      show includes ((b :: bs) ++ post) (b :: bs) = true
      simp only [List.cons_append] at hpre
      rw [List.cons_append]
      unfold includes
      rw [hpre]
      simp
  | cons c pre ih =>
    intro post
    show includes (c :: (pre ++ pat ++ post)) pat = true
    unfold includes
    rw [ih post]
    simp

theorem summary_includes_token (g : ViolationGroup)
    (hb : extractSignature (generateGroupSummary g) = some g.signature) :
    includes (generateGroupSummary g) (sigToken g.signature) = true := by
  obtain ⟨pre, post, hpp⟩ := extractSignature_decomp _ _ hb
  rw [hpp]
  exact includes_of_decomp _ pre post

theorem findMatchingIssue_nil (g : ViolationGroup) : findMatchingIssue g [] = none := rfl

theorem sync_fold_create_all (groups : List ViolationGroup) :
    ∀ (rs : List IssueResult) (t : Tracker),
      (groups.foldl (syncStep []) (rs, t)).2 =
        ⟨t.issues ++ createdList groups t.nextNumber,
         t.nextNumber + groups.length⟩ := by
  induction groups with
  | nil =>
    intro rs t
    obtain ⟨is, n⟩ := t
    simp [createdList]
  | cons g gs ih =>
    intro rs t
    show (gs.foldl (syncStep []) (syncStep [] (rs, t) g)).2 = _
    have hstep : syncStep [] (rs, t) g =
        (rs ++ [(createIssue g t).1], (createIssue g t).2) := by
      simp [syncStep, findMatchingIssue_nil]
    rw [hstep, ih]
    show (⟨(t.issues ++ [mkIssue g t.nextNumber]) ++
        createdList gs (t.nextNumber + 1), (t.nextNumber + 1) + gs.length⟩ : Tracker) = _
    congr 1
    · rw [List.append_assoc]
      rfl
    · simp only [List.length_cons]
      omega

theorem closeResolved_nil (groups : List ViolationGroup) (t : Tracker) :
    closeResolvedIssues [] groups t = t := rfl

theorem syncIssues_from_empty (groups : List ViolationGroup) (n0 : Nat) :
    (syncIssues groups ⟨[], n0⟩).2 = ⟨createdList groups n0, n0 + groups.length⟩ := by
  show closeResolvedIssues (getExistingA11yIssues ⟨[], n0⟩) groups
      ((groups.foldl (syncStep (getExistingA11yIssues ⟨[], n0⟩)) ([], ⟨[], n0⟩)).2) = _
  have hex : getExistingA11yIssues ⟨[], n0⟩ = [] := rfl
  rw [hex, closeResolved_nil, sync_fold_create_all]
  simp

theorem createdList_length (groups : List ViolationGroup) :
    ∀ n, (createdList groups n).length = groups.length := by
  induction groups with
  | nil => intro n; rfl
  | cons g gs ih => intro n; simp [createdList, ih]

theorem createdList_mem (groups : List ViolationGroup) :
    ∀ n i, i ∈ createdList groups n → ∃ g ∈ groups, ∃ k, i = mkIssue g k := by
  induction groups with
  | nil => intro n i hi; simp [createdList] at hi
  | cons g gs ih =>
    intro n i hi
    rcases List.mem_cons.mp hi with rfl | hi
    · exact ⟨g, by simp, n, rfl⟩
    · obtain ⟨g', hg', k, hk⟩ := ih (n + 1) i hi
      exact ⟨g', by simp [hg'], k, hk⟩

theorem createdList_mem_self {g : ViolationGroup} {groups : List ViolationGroup}
    (hg : g ∈ groups) : ∀ n, ∃ k, mkIssue g k ∈ createdList groups n := by
  induction groups with
  | nil => simp at hg
  | cons g' gs ih =>
    intro n
    rcases List.mem_cons.mp hg with rfl | hg'
    · exact ⟨n, by simp [createdList]⟩
    · obtain ⟨k, hk⟩ := ih hg' (n + 1)
      exact ⟨k, by simp [createdList, hk]⟩

theorem generateLabels_contains (g : ViolationGroup) :
    (generateLabels g).contains (str "accessibility") = true := by
  unfold generateLabels
  rw [List.cons_append, List.contains_cons]
  simp

theorem createdList_open_labeled (groups : List ViolationGroup) (n : Nat) :
    ∀ i ∈ createdList groups n,
      i.isOpen = true ∧ i.labels.contains (str "accessibility") = true := by
  intro i hi
  obtain ⟨g, _, k, rfl⟩ := createdList_mem groups n i hi
  exact ⟨rfl, generateLabels_contains g⟩

theorem getExisting_all (t : Tracker)
    (h : ∀ i ∈ t.issues,
      i.isOpen = true ∧ i.labels.contains (str "accessibility") = true) :
    getExistingA11yIssues t = t.issues := by
  unfold getExistingA11yIssues
  rw [List.filter_eq_self]
  intro i hi
  obtain ⟨h1, h2⟩ := h i hi
  rw [h1, h2]
  rfl

theorem updateIssue_length (n : Nat) (g : ViolationGroup) (t : Tracker) :
    (updateIssue n g t).2.issues.length = t.issues.length := by
  simp [updateIssue]

theorem updateIssue_allOpen (n : Nat) (g : ViolationGroup) (t : Tracker)
    (h : AllOpenLabeled t) : AllOpenLabeled (updateIssue n g t).2 := by
  intro i hi
  simp only [updateIssue] at hi
  rcases List.mem_map.mp hi with ⟨j, hj, rfl⟩
  by_cases hn : j.number = n
  · simp only [hn, if_true]
    exact ⟨(h j hj).1, generateLabels_contains g⟩
  · simp only [hn, if_false]
    exact h j hj

theorem sync_fold_matched (existing : List TrackedIssue)
    (groups : List ViolationGroup)
    (hm : ∀ g ∈ groups, (findMatchingIssue g existing).isSome = true) :
    ∀ (rs : List IssueResult) (t : Tracker), AllOpenLabeled t →
      AllOpenLabeled ((groups.foldl (syncStep existing) (rs, t)).2) ∧
      ((groups.foldl (syncStep existing) (rs, t)).2).issues.length =
        t.issues.length := by
  induction groups with
  | nil => intro rs t h; exact ⟨h, rfl⟩
  | cons g gs ih =>
    intro rs t h
    have hg := hm g (by simp)
    obtain ⟨i, hi⟩ := Option.isSome_iff_exists.mp hg
    have hstep : syncStep existing (rs, t) g =
        (rs ++ [(updateIssue i.number g t).1], (updateIssue i.number g t).2) := by
      simp [syncStep, hi]
    rw [List.foldl_cons, hstep]
    have ihres := ih (fun g' hg' => hm g' (List.mem_cons_of_mem _ hg'))
      (rs ++ [(updateIssue i.number g t).1]) ((updateIssue i.number g t).2)
      (updateIssue_allOpen i.number g t h)
    exact ⟨ihres.1, ihres.2.trans (updateIssue_length i.number g t)⟩

theorem closeStep_id (sigs : List Str) (t : Tracker) (i : TrackedIssue) (s : Str)
    (hs : extractSignature i.body = some s) (hc : sigs.contains s = true) :
    closeStep sigs t i = t := by
  unfold closeStep
  rw [hs]
  dsimp only
  rw [hc]
  simp

theorem closeResolved_id :
    ∀ (existing : List TrackedIssue) (groups : List ViolationGroup) (t : Tracker),
      (∀ i ∈ existing, ∃ s, extractSignature i.body = some s ∧
        ((groups.map (fun g => g.signature)).contains s) = true) →
      closeResolvedIssues existing groups t = t := by
  intro existing groups
  induction existing with
  | nil => intro t _; rfl
  | cons i is ih =>
    intro t h
    obtain ⟨s, hs, hc⟩ := h i (by simp)
    show List.foldl (closeStep (groups.map (fun g => g.signature)))
      ((closeStep (groups.map (fun g => g.signature))) t i) is = t
    rw [closeStep_id _ t i s hs hc]
    exact ih t (fun j hj => h j (List.mem_cons_of_mem _ hj))

theorem contains_of_mem {l : List Str} {s : Str} (h : s ∈ l) :
    l.contains s = true := by
  induction l with
  | nil => simp at h
  | cons a as ih =>
    rw [List.contains_cons]
    rcases List.mem_cons.mp h with rfl | h'
    · simp
    · rw [ih h']
      simp

/-- Amended C2.  Starting from a tracker that holds no issues, running
`syncIssues` twice with the same group list — each group's rendered summary
embedding its signature as the first signature token — yields no `created`
result on the second run, and the open accessibility-issue count after the
second run equals the count after the first. -/
theorem c2_amended_idempotent_from_empty (groups : List ViolationGroup) (n0 : Nat)
    (hb : ∀ g ∈ groups,
      extractSignature (generateGroupSummary g) = some g.signature) :
    (∀ r ∈ (syncIssues groups (syncIssues groups ⟨[], n0⟩).2).1,
        r.action ≠ IssueAction.created) ∧
    openA11yCount (syncIssues groups (syncIssues groups ⟨[], n0⟩).2).2 =
      openA11yCount (syncIssues groups ⟨[], n0⟩).2 := by
  have ht1eq : (syncIssues groups ⟨[], n0⟩).2 =
      ⟨createdList groups n0, n0 + groups.length⟩ := syncIssues_from_empty groups n0
  set t1 := (syncIssues groups ⟨[], n0⟩).2 with ht1
  have hopen := createdList_open_labeled groups n0
  have hAll1 : AllOpenLabeled t1 := by
    rw [ht1eq]
    intro i hi
    exact hopen i hi
  have hex2 : getExistingA11yIssues t1 = createdList groups n0 := by
    rw [ht1eq]
    exact getExisting_all _ hopen
  have hmatch : ∀ g ∈ groups,
      (findMatchingIssue g (getExistingA11yIssues t1)).isSome = true := by
    intro g hg
    rw [hex2]
    obtain ⟨k, hk⟩ := createdList_mem_self hg n0
    apply List.find?_isSome.mpr
    refine ⟨mkIssue g k, hk, ?_⟩
    unfold issueMatches
    rw [show (mkIssue g k).body = generateGroupSummary g from rfl]
    rw [summary_includes_token g (hb g hg)]
    simp
  constructor
  · intro r hr
    have hmem : r.action ∈ (syncIssues groups t1).1.map (fun r => r.action) :=
      List.mem_map_of_mem _ hr
    rw [syncIssues_actions] at hmem
    rcases List.mem_map.mp hmem with ⟨g, hg, hgr⟩
    rw [if_pos (hmatch g hg)] at hgr
    rw [← hgr]
    simp
  · have hstate : (syncIssues groups t1).2 =
        closeResolvedIssues (getExistingA11yIssues t1) groups
          ((groups.foldl (syncStep (getExistingA11yIssues t1)) ([], t1)).2) := rfl
    have hfold := sync_fold_matched (getExistingA11yIssues t1) groups hmatch [] t1 hAll1
    have hclose : closeResolvedIssues (getExistingA11yIssues t1) groups
        ((groups.foldl (syncStep (getExistingA11yIssues t1)) ([], t1)).2) =
        (groups.foldl (syncStep (getExistingA11yIssues t1)) ([], t1)).2 := by
      apply closeResolved_id
      intro i hi
      rw [hex2] at hi
      obtain ⟨g, hg, k, rfl⟩ := createdList_mem groups n0 i hi
      refine ⟨g.signature, hb g hg, ?_⟩
      exact contains_of_mem (List.mem_map_of_mem _ hg)
    rw [hstate, hclose]
    unfold openA11yCount
    rw [getExisting_all _ hfold.1]
    conv_rhs => rw [getExisting_all t1 hAll1]
    exact hfold.2

/-- Witness for the amended C2 at a concrete one-group run. -/
theorem c2_amended_idempotent_from_empty_witness :
    (∀ r ∈ (syncIssues [c2Group] (syncIssues [c2Group] ⟨[], 1⟩).2).1,
        r.action ≠ IssueAction.created) ∧
    openA11yCount (syncIssues [c2Group] (syncIssues [c2Group] ⟨[], 1⟩).2).2 =
      openA11yCount (syncIssues [c2Group] ⟨[], 1⟩).2 :=
  c2_amended_idempotent_from_empty [c2Group] 1 (by decide)

/-- C2 counterexample.  From a tracker holding one open issue whose title
contains the rule id but whose body embeds a stale signature, the first run
matches it by title, overwrites its body, and then closes it because its
snapshot body's embedded signature is absent from the group set; the second
run therefore has to create — reconciliation is not idempotent. -/
theorem c2_counterexample :
    (syncIssues [c2Group] (syncIssues [c2Group] c2Tracker).2).1.map
        (fun r => r.action) = [IssueAction.created] ∧
    openA11yCount (syncIssues [c2Group] c2Tracker).2 = 0 ∧
    openA11yCount (syncIssues [c2Group] (syncIssues [c2Group] c2Tracker).2).2 = 1 := by
  decide

/-! ### Structured-markup scan machinery (C1) -/

theorem mem_of_jsSpace (c : Char) (h : isJsSpace c = true) :
    c ∈ ([' ', '\t', '\n', '\x0b', '\x0c', '\r', ' ', ' ', ' ', ' ',
          ' ', ' ', ' ', ' ', ' ', ' ', ' ', ' ',
          ' ', ' ', ' ', ' ', ' ', '　', '﻿'] : List Char) := by
  simp only [isJsSpace, Bool.or_eq_true, beq_iff_eq, or_assoc] at h
  simpa only [List.mem_cons, List.not_mem_nil, or_false] using h

theorem wordChar_not_space (c : Char) (h : isWordChar c = true) : isJsSpace c = false := by
  cases hs : isJsSpace c
  · rfl
  · have hm := mem_of_jsSpace c hs
    fin_cases hm <;> exact absurd h (by decide)

theorem dataName_not_space (c : Char) (h : isDataNameCh c = true) : isJsSpace c = false := by
  cases hs : isJsSpace c
  · rfl
  · have hm := mem_of_jsSpace c hs
    fin_cases hm <;> exact absurd h (by decide)

theorem prefix_head {α : Type} {l1 l2 : List α} (h : l1 <+: l2) (hne : l1 ≠ []) :
    l2.head? = l1.head? := by
  obtain ⟨t, rfl⟩ := h
  cases l1 with
  | nil => exact absurd rfl hne
  | cons a as => rfl

theorem prefix_append_cases {α : Type} {lit w z : List α} (h : lit <+: w ++ z) :
    lit <+: w ∨ ∃ j, j < lit.length ∧ w = lit.take j ∧ lit.drop j <+: z := by
  by_cases hle : lit.length ≤ w.length
  · exact Or.inl (List.prefix_of_prefix_length_le h (w.prefix_append z) hle)
  · right
    have hwl : w <+: lit :=
      List.prefix_of_prefix_length_le (w.prefix_append z) h (Nat.le_of_not_le hle)
    refine ⟨w.length, Nat.lt_of_not_le hle, List.prefix_iff_eq_take.mp hwl, ?_⟩
    obtain ⟨t, ht⟩ := h
    have hlit : w ++ lit.drop w.length = lit := by
      conv_rhs => rw [← List.take_append_drop w.length lit]
      rw [← List.prefix_iff_eq_take.mp hwl]
    refine ⟨t, ?_⟩
    have h2 : w ++ (lit.drop w.length ++ t) = w ++ z := by
      rw [← List.append_assoc, hlit, ht]
    exact List.append_cancel_left h2

theorem suffix_append_cases {α : Type} {q a b : List α} (h : q <:+ a ++ b) :
    q <:+ b ∨ ∃ r, r <:+ a ∧ r ≠ [] ∧ q = r ++ b := by
  by_cases hle : q.length ≤ b.length
  · left
    have h1 : q.reverse <+: (a ++ b).reverse := List.reverse_prefix.mpr h
    have h2 : b.reverse <+: (a ++ b).reverse := by
      rw [List.reverse_append]; exact b.reverse.prefix_append a.reverse
    have h3 := List.prefix_of_prefix_length_le h1 h2 (by simpa using hle)
    exact List.reverse_prefix.mp h3
  · right
    have h1 : q.reverse <+: b.reverse ++ a.reverse := by
      rw [← List.reverse_append]; exact List.reverse_prefix.mpr h
    rcases prefix_append_cases h1 with hq | ⟨j, hj, hb, hd⟩
    · exact absurd (by simpa using hq.length_le) hle
    · have hr : (q.reverse.drop j).reverse <:+ a := by
        rw [← List.reverse_prefix, List.reverse_reverse]
        exact hd
      refine ⟨(q.reverse.drop j).reverse, hr, ?_, ?_⟩
      · intro hnil
        have hdn : q.reverse.drop j = [] := by
          simpa using congrArg List.reverse hnil
        have hlen := congrArg List.length hdn
        rw [List.length_drop, List.length_reverse] at hlen
        rw [List.length_reverse] at hj
        simp at hlen
        omega
      · have hbrev : (q.reverse.take j).reverse = b := by
          rw [← hb, List.reverse_reverse]
        calc q = q.reverse.reverse := (List.reverse_reverse q).symm
          _ = (q.reverse.take j ++ q.reverse.drop j).reverse := by
              rw [List.take_append_drop]
          _ = (q.reverse.drop j).reverse ++ (q.reverse.take j).reverse := by
              rw [List.reverse_append]
          _ = (q.reverse.drop j).reverse ++ b := by rw [hbrev]

theorem suffix_singleton {α : Type} {t : List α} {x : α} (h : t <:+ [x]) (hne : t ≠ []) :
    t = [x] := by
  rcases List.suffix_cons_iff.mp h with h1 | h1
  · exact h1
  · exact absurd (List.eq_nil_of_suffix_nil h1) hne

theorem scanWith_append_none (m : Str → Option (Str × Nat)) :
    ∀ (w z : Str), (∀ t, t ≠ [] → t <:+ w → m (t ++ z) = none) →
      scanWith m (w ++ z) = w ++ scanWith m z := by
  intro w
  induction w with
  | nil => intro z _; rfl
  | cons c w ih =>
    intro z h
    rw [List.cons_append, scanWith_cons]
    have hw : m ((c :: w) ++ z) = none := h (c :: w) (by simp) (List.suffix_refl _)
    rw [List.cons_append] at hw
    rw [hw]
    dsimp only
    rw [ih z (fun t htne hts => h t htne (hts.trans (List.suffix_cons c w)))]
    rfl

theorem scanWith_head_match (m : Str → Option (Str × Nat)) (w z r : Str)
    (hne : w ≠ []) (hm : m (w ++ z) = some (r, w.length - 1)) :
    scanWith m (w ++ z) = r ++ scanWith m z := by
  cases w with
  | nil => exact absurd rfl hne
  | cons c cs =>
    rw [List.cons_append, scanWith_cons]
    rw [List.cons_append] at hm
    rw [hm]
    dsimp only
    congr 1
    rw [show (c :: cs).length - 1 = cs.length from by simp]
    rw [List.drop_left]

theorem takeWhile_append_stop {α : Type} (p : α → Bool) (l r : List α)
    (hl : l.all p = true) (hr : ∀ c, r.head? = some c → p c = false) :
    (l ++ r).takeWhile p = l := by
  induction l with
  | nil =>
    cases r with
    | nil => rfl
    | cons c cs =>
      simp only [List.nil_append, List.takeWhile_cons, hr c rfl]
      simp
  | cons a l ih =>
    simp only [List.all_cons, Bool.and_eq_true] at hl
    rw [List.cons_append, List.takeWhile_cons, if_pos hl.1, ih hl.2]

theorem drop_len_takeWhile {α : Type} (p : α → Bool) (l : List α) :
    l.drop (l.takeWhile p).length = l.dropWhile p := by
  induction l with
  | nil => rfl
  | cons a l ih =>
    rw [List.takeWhile_cons, List.dropWhile_cons]
    cases hp : p a
    · simp
    · simp only [if_true, List.length_cons, List.drop_succ_cons]
      exact ih

theorem cleanVal_spec {c : Char} (h : cleanValCh c = true) :
    c ≠ '"' ∧ c ≠ '=' ∧ c ≠ '<' ∧ c ≠ '>' := by
  simp only [cleanValCh, Bool.not_eq_eq_eq_not, Bool.not_true, Bool.or_eq_false_iff,
    decide_eq_false_iff_not] at h
  exact ⟨h.1.1.1, h.1.1.2, h.1.2, h.2⟩

theorem splitAtQuote_clean (v z : Str) (hv : v.all cleanValCh = true) :
    splitAtQuote (v ++ ('"' :: z)) = some (v, z) := by
  have htw : (v ++ ('"' :: z)).takeWhile (fun c => c ≠ '"') = v := by
    apply takeWhile_append_stop
    · rw [List.all_eq_true]
      intro c hc
      have hcv := cleanVal_spec (List.all_eq_true.mp hv c hc)
      simp [hcv.1]
    · intro c hc
      simp only [List.head?_cons, Option.some.injEq] at hc
      subst hc
      simp
  unfold splitAtQuote
  dsimp only
  rw [htw, List.drop_left]
  rfl

theorem renderAttr_suffix_cases (a : HtmlAttr) (t : Str) (hne : t ≠ [])
    (ht : t <:+ renderAttr a) :
    t = renderAttr a ∨
    (∃ n, n <:+ a.name ∧ n ≠ [] ∧ t = n ++ (['=', '"'] ++ (a.value ++ ['"']))) ∨
    t = ['=', '"'] ++ (a.value ++ ['"']) ∨
    t = '"' :: (a.value ++ ['"']) ∨
    (∃ w, w <:+ a.value ∧ w ≠ [] ∧ t = w ++ ['"']) ∨
    t = ['"'] := by
  have hra : renderAttr a = [' '] ++ (a.name ++ (['=', '"'] ++ (a.value ++ ['"']))) := by
    simp [renderAttr]
  rw [hra] at ht
  rcases suffix_append_cases ht with h1 | ⟨r, hr, hrne, rfl⟩
  · rcases suffix_append_cases h1 with h2 | ⟨n, hn, hnne, rfl⟩
    · rcases suffix_append_cases h2 with h3 | ⟨r, hr, hrne, rfl⟩
      · rcases suffix_append_cases h3 with h4 | ⟨w, hw, hwne, rfl⟩
        · exact Or.inr (Or.inr (Or.inr (Or.inr (Or.inr (suffix_singleton h4 hne)))))
        · exact Or.inr (Or.inr (Or.inr (Or.inr (Or.inl ⟨w, hw, hwne, rfl⟩))))
      · rcases List.suffix_cons_iff.mp hr with h4 | h4
        · exact Or.inr (Or.inr (Or.inl (by rw [h4])))
        · have h5 := suffix_singleton h4 hrne
          exact Or.inr (Or.inr (Or.inr (Or.inl (by rw [h5]; rfl))))
    · exact Or.inr (Or.inl ⟨n, hn, hnne, rfl⟩)
  · have h5 := suffix_singleton hr hrne
    left
    rw [hra, h5]

theorem ariaControlsMatch_none_head (c : Char) (s : Str) (h : c ≠ 'a') :
    ariaControlsMatch (c :: s) = none := by
  have hpf : (str "aria-controls=\"").isPrefixOf (c :: s) = false := by
    show (('a' :: str "ria-controls=\"").isPrefixOf (c :: s)) = false
    show ('a' == c && (str "ria-controls=\"").isPrefixOf s) = false
    have : ('a' == c) = false := beq_eq_false_iff_ne.mpr (Ne.symm h)
    simp [this]
  simp [ariaControlsMatch, hpf]

theorem idAttrMatch_none_head (c : Char) (s : Str) (h : isJsSpace c = false) :
    idAttrMatch (c :: s) = none := by
  simp [idAttrMatch, h]

theorem dataAttrMatch_none_head (c : Char) (s : Str) (h : isJsSpace c = false) :
    dataAttrMatch (c :: s) = none := by
  simp [dataAttrMatch, h]

theorem classAttrMatch_none_head (c : Char) (s : Str) (h : isJsSpace c = false) :
    classAttrMatch (c :: s) = none := by
  simp [classAttrMatch, h]

theorem cleanAttr_parts {a : HtmlAttr} (ha : cleanAttrB a = true) :
    (a.name ≠ [] ∧ a.name.all isDataNameCh = true ∧
      ((a.name == str "aria-controls") || !((str "aria-controls").isSuffixOf a.name)) = true) ∧
    a.value.all cleanValCh = true ∧ includes a.value (str " data-") = false := by
  simp only [cleanAttrB, Bool.and_eq_true] at ha
  obtain ⟨⟨hname, hval⟩, hdata⟩ := ha
  simp only [cleanNameB, Bool.and_eq_true] at hname
  obtain ⟨⟨hne, hall⟩, hsuf⟩ := hname
  refine ⟨⟨?_, hall, hsuf⟩, hval, ?_⟩
  · intro hnil
    rw [hnil] at hne
    simp at hne
  · cases hinc : includes a.value (str " data-")
    · rfl
    · rw [hinc] at hdata; simp at hdata

theorem ariaControlsMatch_skip (a : HtmlAttr) (ha : cleanAttrB a = true)
    (hno : a.name ≠ str "aria-controls") (t z : Str) (hne : t ≠ [])
    (ht : t <:+ renderAttr a) :
    ariaControlsMatch (t ++ z) = none := by
  obtain ⟨⟨_, hname_all, hname_suf⟩, hval, _⟩ := cleanAttr_parts ha
  have hlen : (str "aria-controls=\"").length = 15 := by decide
  rcases renderAttr_suffix_cases a t hne ht with rfl | ⟨n, hn, hnne, rfl⟩ | rfl | rfl |
    ⟨w, hw, hwne, rfl⟩ | rfl
  · have harr : renderAttr a ++ z =
        ' ' :: (a.name ++ (['=', '"'] ++ (a.value ++ ('"' :: z)))) := by
      simp [renderAttr]
    rw [harr]
    exact ariaControlsMatch_none_head _ _ (by decide)
  · have harr : (n ++ (['=', '"'] ++ (a.value ++ ['"']))) ++ z =
        n ++ ('=' :: ('"' :: (a.value ++ ('"' :: z)))) := by simp
    rw [harr]
    have hpf : (str "aria-controls=\"").isPrefixOf
        (n ++ ('=' :: ('"' :: (a.value ++ ('"' :: z))))) = false := by
      cases hp : (str "aria-controls=\"").isPrefixOf
          (n ++ ('=' :: ('"' :: (a.value ++ ('"' :: z)))))
      · rfl
      · exfalso
        have hpre := List.isPrefixOf_iff_prefix.mp hp
        rcases prefix_append_cases hpre with hq | ⟨j, hj, hnj, hd⟩
        · have hmem : '=' ∈ n := hq.subset (by decide)
          exact absurd (List.all_eq_true.mp hname_all '=' (hn.subset hmem)) (by decide)
        · have hdne : (str "aria-controls=\"").drop j ≠ [] := by
            apply List.ne_nil_of_length_pos
            rw [List.length_drop, hlen]
            rw [hlen] at hj
            omega
          have hhead := prefix_head hd hdne
          have hj13 : j = 13 := by
            have hh : ((str "aria-controls=\"").drop j).head? = some '=' := by
              rw [← hhead]; rfl
            have hdec : ∀ jj, jj < 15 →
                (((str "aria-controls=\"").drop jj).head? = some '=') → jj = 13 := by decide
            rw [hlen] at hj
            exact hdec j hj hh
          subst hj13
          have hn13 : n = str "aria-controls" := by rw [hnj]; decide
          rcases Bool.or_eq_true_iff.mp hname_suf with he | hns
          · exact hno (by simpa using he)
          · have hsf : (str "aria-controls").isSuffixOf a.name = true :=
              List.isSuffixOf_iff_suffix.mpr (hn13 ▸ hn)
            rw [Bool.not_eq_true'] at hns
            rw [hns] at hsf
            simp at hsf
    simp [ariaControlsMatch, hpf]
  · have harr : (['=', '"'] ++ (a.value ++ ['"'])) ++ z =
        '=' :: ('"' :: (a.value ++ ('"' :: z))) := by simp
    rw [harr]
    exact ariaControlsMatch_none_head _ _ (by decide)
  · have harr : ('"' :: (a.value ++ ['"'])) ++ z =
        '"' :: (a.value ++ ('"' :: z)) := by simp
    rw [harr]
    exact ariaControlsMatch_none_head _ _ (by decide)
  · have harr : (w ++ ['"']) ++ z = w ++ ('"' :: z) := by simp
    rw [harr]
    have hpf : (str "aria-controls=\"").isPrefixOf (w ++ ('"' :: z)) = false := by
      cases hp : (str "aria-controls=\"").isPrefixOf (w ++ ('"' :: z))
      · rfl
      · exfalso
        have hpre := List.isPrefixOf_iff_prefix.mp hp
        rcases prefix_append_cases hpre with hq | ⟨j, hj, hwj, hd⟩
        · have hmem : '=' ∈ w := hq.subset (by decide)
          exact absurd (List.all_eq_true.mp hval '=' (hw.subset hmem)) (by decide)
        · have hdne : (str "aria-controls=\"").drop j ≠ [] := by
            apply List.ne_nil_of_length_pos
            rw [List.length_drop, hlen]
            rw [hlen] at hj
            omega
          have hhead := prefix_head hd hdne
          have hj14 : j = 14 := by
            have hh : ((str "aria-controls=\"").drop j).head? = some '"' := by
              rw [← hhead]; rfl
            have hdec : ∀ jj, jj < 15 →
                (((str "aria-controls=\"").drop jj).head? = some '"') → jj = 14 := by decide
            rw [hlen] at hj
            exact hdec j hj hh
          subst hj14
          have hw14 : w = str "aria-controls=" := by rw [hwj]; decide
          have hmem : '=' ∈ w := by rw [hw14]; decide
          exact absurd (List.all_eq_true.mp hval '=' (hw.subset hmem)) (by decide)
    simp [ariaControlsMatch, hpf]
  · have harr : ['"'] ++ z = '"' :: z := rfl
    rw [harr]
    exact ariaControlsMatch_none_head _ _ (by decide)

theorem ariaControlsMatch_hit (a : HtmlAttr) (ha : cleanAttrB a = true)
    (heq : a.name = str "aria-controls") (z : Str) :
    scanWith ariaControlsMatch (renderAttr a ++ z) =
      renderAttr ⟨a.name, []⟩ ++ scanWith ariaControlsMatch z := by
  obtain ⟨_, hval, _⟩ := cleanAttr_parts ha
  have hcat : (str "aria-controls=\"" ++ (a.value ++ ['"'])) ++ z =
      str "aria-controls=\"" ++ (a.value ++ ('"' :: z)) := by simp
  have harr : renderAttr a ++ z =
      ' ' :: ((str "aria-controls=\"" ++ (a.value ++ ['"'])) ++ z) := by
    rw [renderAttr, heq]
    rw [show str "aria-controls=\"" = str "aria-controls" ++ ['=', '"'] from by decide]
    simp
  rw [harr, scanWith_cons]
  rw [show ariaControlsMatch
      (' ' :: ((str "aria-controls=\"" ++ (a.value ++ ['"'])) ++ z)) = none
    from ariaControlsMatch_none_head _ _ (by decide)]
  dsimp only
  have hm : ariaControlsMatch ((str "aria-controls=\"" ++ (a.value ++ ['"'])) ++ z) =
      some (str "aria-controls=\"\"",
        (str "aria-controls=\"" ++ (a.value ++ ['"'])).length - 1) := by
    rw [hcat]
    unfold ariaControlsMatch
    dsimp only
    rw [if_pos (List.isPrefixOf_iff_prefix.mpr (List.prefix_append _ _))]
    rw [List.drop_left]
    rw [splitAtQuote_clean a.value z hval]
    dsimp only
    have hl : (str "aria-controls=\"" ++ (a.value ++ ['"'])).length - 1 =
        (str "aria-controls=\"").length + a.value.length := by simp
    rw [hl]
  rw [scanWith_head_match _ _ _ _
    (fun h => absurd (List.append_eq_nil.mp h).1 (by decide)) hm]
  rw [heq]
  rw [show renderAttr ⟨str "aria-controls", []⟩ = ' ' :: str "aria-controls=\"\""
    from by decide]
  simp

theorem idAttrMatch_skip (a : HtmlAttr) (ha : cleanAttrB a = true)
    (hno : a.name ≠ str "id") (t z : Str) (hne : t ≠ []) (ht : t <:+ renderAttr a) :
    idAttrMatch (t ++ z) = none := by
  obtain ⟨⟨_, hname_all, _⟩, hval, _⟩ := cleanAttr_parts ha
  rcases renderAttr_suffix_cases a t hne ht with rfl | ⟨n, hn, hnne, rfl⟩ | rfl | rfl |
    ⟨w, hw, hwne, rfl⟩ | rfl
  · have harr : renderAttr a ++ z =
        ' ' :: (a.name ++ ('=' :: ('"' :: (a.value ++ ('"' :: z))))) := by
      simp [renderAttr]
    rw [harr]
    have hpf : (str "id=\"").isPrefixOf
        (a.name ++ ('=' :: ('"' :: (a.value ++ ('"' :: z))))) = false := by
      cases hp : (str "id=\"").isPrefixOf
          (a.name ++ ('=' :: ('"' :: (a.value ++ ('"' :: z)))))
      · rfl
      · exfalso
        have hpre := List.isPrefixOf_iff_prefix.mp hp
        rcases prefix_append_cases hpre with hq | ⟨j, hj, hnj, hd⟩
        · exact absurd (List.all_eq_true.mp hname_all '='
            (hq.subset (by decide))) (by decide)
        · have hdne : (str "id=\"").drop j ≠ [] := by
            apply List.ne_nil_of_length_pos
            rw [List.length_drop]
            rw [show (str "id=\"").length = 4 from by decide] at hj ⊢
            omega
          have hhead := prefix_head hd hdne
          have hj2 : j = 2 := by
            have hh : ((str "id=\"").drop j).head? = some '=' := by rw [← hhead]; rfl
            have hdec : ∀ jj, jj < 4 →
                (((str "id=\"").drop jj).head? = some '=') → jj = 2 := by decide
            rw [show (str "id=\"").length = 4 from by decide] at hj
            exact hdec j hj hh
          subst hj2
          exact hno (by rw [hnj]; decide)
    simp [idAttrMatch, hpf]
  · cases n with
    | nil => exact absurd rfl hnne
    | cons c n =>
      have hdc : isDataNameCh c = true :=
        List.all_eq_true.mp hname_all c (hn.subset (List.mem_cons_self c n))
      have harr : ((c :: n) ++ (['=', '"'] ++ (a.value ++ ['"']))) ++ z =
          c :: (n ++ ('=' :: ('"' :: (a.value ++ ('"' :: z))))) := by simp
      rw [harr]
      exact idAttrMatch_none_head _ _ (dataName_not_space c hdc)
  · have harr : (['=', '"'] ++ (a.value ++ ['"'])) ++ z =
        '=' :: ('"' :: (a.value ++ ('"' :: z))) := by simp
    rw [harr]
    exact idAttrMatch_none_head _ _ (by decide)
  · have harr : ('"' :: (a.value ++ ['"'])) ++ z =
        '"' :: (a.value ++ ('"' :: z)) := by simp
    rw [harr]
    exact idAttrMatch_none_head _ _ (by decide)
  · cases w with
    | nil => exact absurd rfl hwne
    | cons c w =>
      have hcv : c ∈ a.value := hw.subset (List.mem_cons_self c w)
      have hwsub : ∀ x ∈ w, x ∈ a.value :=
        fun x hx => hw.subset (List.mem_cons_of_mem c hx)
      have harr : ((c :: w) ++ ['"']) ++ z = c :: (w ++ ('"' :: z)) := by simp
      rw [harr]
      cases hsp : isJsSpace c with
      | false => exact idAttrMatch_none_head _ _ hsp
      | true =>
        have hpf : (str "id=\"").isPrefixOf (w ++ ('"' :: z)) = false := by
          cases hp : (str "id=\"").isPrefixOf (w ++ ('"' :: z))
          · rfl
          · exfalso
            have hpre := List.isPrefixOf_iff_prefix.mp hp
            rcases prefix_append_cases hpre with hq | ⟨j, hj, hwj, hd⟩
            · exact absurd (List.all_eq_true.mp hval '='
                (hwsub '=' (hq.subset (by decide)))) (by decide)
            · have hdne : (str "id=\"").drop j ≠ [] := by
                apply List.ne_nil_of_length_pos
                rw [List.length_drop]
                rw [show (str "id=\"").length = 4 from by decide] at hj ⊢
                omega
              have hhead := prefix_head hd hdne
              have hj3 : j = 3 := by
                have hh : ((str "id=\"").drop j).head? = some '"' := by rw [← hhead]; rfl
                have hdec : ∀ jj, jj < 4 →
                    (((str "id=\"").drop jj).head? = some '"') → jj = 3 := by decide
                rw [show (str "id=\"").length = 4 from by decide] at hj
                exact hdec j hj hh
              subst hj3
              have hmem : '=' ∈ w := by rw [hwj]; decide
              exact absurd (List.all_eq_true.mp hval '=' (hwsub '=' hmem)) (by decide)
        simp [idAttrMatch, hsp, hpf]
  · have harr : ['"'] ++ z = '"' :: z := rfl
    rw [harr]
    exact idAttrMatch_none_head _ _ (by decide)

theorem idAttrMatch_hit (a : HtmlAttr) (ha : cleanAttrB a = true)
    (heq : a.name = str "id") (z : Str) :
    scanWith idAttrMatch (renderAttr a ++ z) =
      renderAttr ⟨a.name, []⟩ ++ scanWith idAttrMatch z := by
  obtain ⟨_, hval, _⟩ := cleanAttr_parts ha
  have hm : idAttrMatch (renderAttr a ++ z) =
      some (str " id=\"\"", (renderAttr a).length - 1) := by
    have harr : renderAttr a ++ z =
        ' ' :: (str "id=\"" ++ (a.value ++ ('"' :: z))) := by
      rw [renderAttr, heq]
      rw [show str "id=\"" = str "id" ++ ['=', '"'] from by decide]
      simp
    rw [harr]
    unfold idAttrMatch
    dsimp only
    rw [if_pos ⟨by decide, List.isPrefixOf_iff_prefix.mpr (List.prefix_append _ _)⟩]
    rw [show (4 : Nat) = (str "id=\"").length from rfl, List.drop_left]
    rw [splitAtQuote_clean a.value z hval]
    dsimp only
    have hl : (renderAttr a).length - 1 = (str "id=\"").length + a.value.length + 1 := by
      rw [renderAttr, heq]
      simp [List.length_append]
      rw [show (str "id").length = 2 from by decide,
          show (str "id=\"").length = 4 from by decide]
      omega
    rw [hl]
  rw [scanWith_head_match _ _ _ _ (by simp [renderAttr]) hm]
  rw [heq]
  rw [show renderAttr ⟨str "id", []⟩ = str " id=\"\"" from by decide]

theorem data_eq_check_false (u z : Str) (hu : u.all cleanValCh = true) :
    (str "=\"").isPrefixOf
      ((u ++ ('"' :: z)).drop ((u ++ ('"' :: z)).takeWhile isDataNameCh).length) = false := by
  induction u with
  | nil =>
    rw [List.nil_append, List.takeWhile_cons]
    rw [show isDataNameCh '"' = false from by decide]
    simp only [Bool.false_eq_true, if_false, List.length_nil, List.drop_zero]
    have hstep : (str "=\"").isPrefixOf ('"' :: z) =
        ('=' == '"' && (str "\"").isPrefixOf z) := rfl
    rw [hstep, show ('=' == '"') = false from by decide]
    simp
  | cons c u ih =>
    simp only [List.all_cons, Bool.and_eq_true] at hu
    rw [List.cons_append, List.takeWhile_cons]
    cases hdc : isDataNameCh c with
    | false =>
      simp only [Bool.false_eq_true, if_false, List.length_nil, List.drop_zero]
      have hstep : (str "=\"").isPrefixOf (c :: (u ++ ('"' :: z))) =
          ('=' == c && (str "\"").isPrefixOf (u ++ ('"' :: z))) := rfl
      have hcne : ('=' == c) = false :=
        beq_eq_false_iff_ne.mpr (Ne.symm (cleanVal_spec hu.1).2.1)
      rw [hstep, hcne]
      simp
    | true =>
      simp only [if_true, List.length_cons, List.drop_succ_cons]
      exact ih hu.2

theorem data_check_false (w1 z : Str) (h5 : 5 ≤ w1.length)
    (hval : w1.all cleanValCh = true) :
    (str "=\"").isPrefixOf ((w1 ++ ('"' :: z)).drop
      (5 + (((w1 ++ ('"' :: z)).drop 5).takeWhile isDataNameCh).length)) = false := by
  have hsplit : (w1 ++ ('"' :: z)).drop 5 = w1.drop 5 ++ ('"' :: z) :=
    List.drop_append_of_le_length h5
  have hdall : (w1.drop 5).all cleanValCh = true := by
    rw [List.all_eq_true]
    intro x hx
    exact List.all_eq_true.mp hval x (List.drop_subset 5 w1 hx)
  rw [hsplit]
  have hdd : ((w1 ++ ('"' :: z)).drop 5).drop
      ((w1.drop 5 ++ ('"' :: z)).takeWhile isDataNameCh).length =
      (w1 ++ ('"' :: z)).drop
        (5 + ((w1.drop 5 ++ ('"' :: z)).takeWhile isDataNameCh).length) := by
    rw [List.drop_drop, Nat.add_comm]
  rw [← hdd, hsplit]
  exact data_eq_check_false (w1.drop 5) z hdall

theorem dataAttrMatch_skip (a : HtmlAttr) (ha : cleanAttrB a = true)
    (hno : isDataAttrName a.name = false) (t z : Str) (hne : t ≠ [])
    (ht : t <:+ renderAttr a) :
    dataAttrMatch (t ++ z) = none := by
  obtain ⟨⟨hname_ne, hname_all, _⟩, hval, _⟩ := cleanAttr_parts ha
  rcases renderAttr_suffix_cases a t hne ht with rfl | ⟨n, hn, hnne, rfl⟩ | rfl | rfl |
    ⟨w, hw, hwne, rfl⟩ | rfl
  · have harr : renderAttr a ++ z =
        ' ' :: (a.name ++ ('=' :: ('"' :: (a.value ++ ('"' :: z))))) := by
      simp [renderAttr]
    rw [harr]
    by_cases hp : (str "data-").isPrefixOf
        (a.name ++ ('=' :: ('"' :: (a.value ++ ('"' :: z))))) = true
    · have hpre := List.isPrefixOf_iff_prefix.mp hp
      rcases prefix_append_cases hpre with hq | ⟨j, hj, hnj, hd⟩
      · -- the name itself starts with "data-"; `hno` forces it to be exactly "data-"
        have hple : (str "data-").length ≤ a.name.length := hq.length_le
        rw [show (str "data-").length = 5 from by decide] at hple
        have hpf_name : (str "data-").isPrefixOf a.name = true :=
          List.isPrefixOf_iff_prefix.mpr hq
        have hlen5 : a.name.length = 5 := by
          rw [isDataAttrName, Bool.and_eq_false_iff] at hno
          rcases hno with hno | hno
          · rw [hpf_name] at hno; simp at hno
          · simp only [decide_eq_false_iff_not, not_lt] at hno
            omega
        have hname5 : a.name = str "data-" :=
          (hq.eq_of_length (by rw [hlen5]; decide)).symm
        unfold dataAttrMatch
        dsimp only
        rw [if_pos ⟨by decide, hp⟩]
        have hdrop : (a.name ++ ('=' :: ('"' :: (a.value ++ ('"' :: z))))).drop 5 =
            '=' :: ('"' :: (a.value ++ ('"' :: z))) := by
          rw [hname5, show (5 : Nat) = (str "data-").length from rfl, List.drop_left]
        rw [hdrop, List.takeWhile_cons, show isDataNameCh '=' = false from by decide]
        simp
      · have hdne : (str "data-").drop j ≠ [] := by
          apply List.ne_nil_of_length_pos
          rw [List.length_drop]
          rw [show (str "data-").length = 5 from by decide] at hj ⊢
          omega
        have hhead := prefix_head hd hdne
        have hh : ((str "data-").drop j).head? = some '=' := by rw [← hhead]; rfl
        have hdec : ∀ jj, jj < 5 →
            ¬(((str "data-").drop jj).head? = some '=') := by decide
        rw [show (str "data-").length = 5 from by decide] at hj
        exact absurd hh (hdec j hj)
    · unfold dataAttrMatch
      dsimp only
      rw [if_neg (fun hc => hp hc.2)]
  · cases n with
    | nil => exact absurd rfl hnne
    | cons c n =>
      have hdc : isDataNameCh c = true :=
        List.all_eq_true.mp hname_all c (hn.subset (List.mem_cons_self c n))
      have harr : ((c :: n) ++ (['=', '"'] ++ (a.value ++ ['"']))) ++ z =
          c :: (n ++ ('=' :: ('"' :: (a.value ++ ('"' :: z))))) := by simp
      rw [harr]
      exact dataAttrMatch_none_head _ _ (dataName_not_space c hdc)
  · have harr : (['=', '"'] ++ (a.value ++ ['"'])) ++ z =
        '=' :: ('"' :: (a.value ++ ('"' :: z))) := by simp
    rw [harr]
    exact dataAttrMatch_none_head _ _ (by decide)
  · have harr : ('"' :: (a.value ++ ['"'])) ++ z =
        '"' :: (a.value ++ ('"' :: z)) := by simp
    rw [harr]
    exact dataAttrMatch_none_head _ _ (by decide)
  · cases w with
    | nil => exact absurd rfl hwne
    | cons c w =>
      have hwsub : ∀ x ∈ w, x ∈ a.value :=
        fun x hx => hw.subset (List.mem_cons_of_mem c hx)
      have hwall : w.all cleanValCh = true := by
        rw [List.all_eq_true]
        exact fun x hx => List.all_eq_true.mp hval x (hwsub x hx)
      have harr : ((c :: w) ++ ['"']) ++ z = c :: (w ++ ('"' :: z)) := by simp
      rw [harr]
      cases hsp : isJsSpace c with
      | false => exact dataAttrMatch_none_head _ _ hsp
      | true =>
        by_cases hp : (str "data-").isPrefixOf (w ++ ('"' :: z)) = true
        · have hpre := List.isPrefixOf_iff_prefix.mp hp
          rcases prefix_append_cases hpre with hq | ⟨j, hj, hwj, hd⟩
          · -- "data-" starts inside the value; the `="` check after the name run fails
            have h5le : 5 ≤ w.length := by
              have := hq.length_le
              rw [show (str "data-").length = 5 from by decide] at this
              exact this
            unfold dataAttrMatch
            dsimp only
            rw [if_pos ⟨hsp, hp⟩]
            rw [if_neg]
            intro hc
            have := hc.2
            rw [data_check_false w z h5le hwall] at this
            simp at this
          · have hdne : (str "data-").drop j ≠ [] := by
              apply List.ne_nil_of_length_pos
              rw [List.length_drop]
              rw [show (str "data-").length = 5 from by decide] at hj ⊢
              omega
            have hhead := prefix_head hd hdne
            have hh : ((str "data-").drop j).head? = some '"' := by rw [← hhead]; rfl
            have hdec : ∀ jj, jj < 5 →
                ¬(((str "data-").drop jj).head? = some '"') := by decide
            rw [show (str "data-").length = 5 from by decide] at hj
            exact absurd hh (hdec j hj)
        · unfold dataAttrMatch
          dsimp only
          rw [if_neg (fun hc => hp hc.2)]
  · have harr : ['"'] ++ z = '"' :: z := rfl
    rw [harr]
    exact dataAttrMatch_none_head _ _ (by decide)

theorem dataAttrMatch_hit (a : HtmlAttr) (ha : cleanAttrB a = true)
    (hd : isDataAttrName a.name = true) (z : Str) :
    scanWith dataAttrMatch (renderAttr a ++ z) = scanWith dataAttrMatch z := by
  obtain ⟨⟨_, hname_all, _⟩, hval, _⟩ := cleanAttr_parts ha
  rw [isDataAttrName, Bool.and_eq_true] at hd
  obtain ⟨hdp, hd5⟩ := hd
  rw [decide_eq_true_eq] at hd5
  have h5le : 5 ≤ a.name.length := by omega
  have hm : dataAttrMatch (renderAttr a ++ z) =
      some ([], (renderAttr a).length - 1) := by
    have harr : renderAttr a ++ z =
        ' ' :: (a.name ++ ('=' :: ('"' :: (a.value ++ ('"' :: z))))) := by
      simp [renderAttr]
    rw [harr]
    unfold dataAttrMatch
    dsimp only
    have hpcs : (str "data-").isPrefixOf
        (a.name ++ ('=' :: ('"' :: (a.value ++ ('"' :: z))))) = true :=
      List.isPrefixOf_iff_prefix.mpr
        ((List.isPrefixOf_iff_prefix.mp hdp).trans (a.name.prefix_append _))
    rw [if_pos ⟨by decide, hpcs⟩]
    have hdrop5 : (a.name ++ ('=' :: ('"' :: (a.value ++ ('"' :: z))))).drop 5 =
        a.name.drop 5 ++ ('=' :: ('"' :: (a.value ++ ('"' :: z)))) :=
      List.drop_append_of_le_length h5le
    have hnm : ((a.name ++ ('=' :: ('"' :: (a.value ++ ('"' :: z))))).drop 5).takeWhile
        isDataNameCh = a.name.drop 5 := by
      rw [hdrop5]
      apply takeWhile_append_stop
      · rw [List.all_eq_true]
        exact fun x hx => List.all_eq_true.mp hname_all x (List.drop_subset 5 a.name hx)
      · intro c hc
        simp only [List.head?_cons, Option.some.injEq] at hc
        subst hc
        decide
    rw [hnm]
    have hlen5 : 5 + (a.name.drop 5).length = a.name.length := by
      rw [List.length_drop]
      omega
    have hdropn : (a.name ++ ('=' :: ('"' :: (a.value ++ ('"' :: z))))).drop
        (5 + (a.name.drop 5).length) = '=' :: ('"' :: (a.value ++ ('"' :: z))) := by
      rw [hlen5, List.drop_left]
    rw [if_pos ?hcond]
    case hcond =>
      constructor
      · intro hnil
        have := congrArg List.length hnil
        rw [List.length_drop] at this
        simp at this
        omega
      · rw [hdropn]
        apply List.isPrefixOf_iff_prefix.mpr
        rw [show str "=\"" = ['=', '"'] from by decide]
        exact ⟨a.value ++ ('"' :: z), rfl⟩
    have hdropn2 : (a.name ++ ('=' :: ('"' :: (a.value ++ ('"' :: z))))).drop
        (5 + (a.name.drop 5).length + 2) = a.value ++ ('"' :: z) := by
      rw [hlen5]
      rw [show a.name ++ ('=' :: ('"' :: (a.value ++ ('"' :: z)))) =
        (a.name ++ ['=', '"']) ++ (a.value ++ ('"' :: z)) from by simp]
      rw [show a.name.length + 2 = (a.name ++ ['=', '"']).length from by simp]
      exact List.drop_left _ _
    rw [hdropn2, splitAtQuote_clean a.value z hval]
    dsimp only
    have hk : 5 + (a.name.drop 5).length + 2 + a.value.length + 1 =
        (renderAttr a).length - 1 := by
      rw [renderAttr, List.length_drop]
      simp [List.length_append]
      omega
    rw [hk]
  rw [scanWith_head_match _ _ _ _ (by simp [renderAttr]) hm]
  rfl

theorem classAttrMatch_skip (a : HtmlAttr) (ha : cleanAttrB a = true)
    (hno : a.name ≠ str "class") (t z : Str) (hne : t ≠ []) (ht : t <:+ renderAttr a) :
    classAttrMatch (t ++ z) = none := by
  obtain ⟨⟨_, hname_all, _⟩, hval, _⟩ := cleanAttr_parts ha
  rcases renderAttr_suffix_cases a t hne ht with rfl | ⟨n, hn, hnne, rfl⟩ | rfl | rfl |
    ⟨w, hw, hwne, rfl⟩ | rfl
  · have harr : renderAttr a ++ z =
        ' ' :: (a.name ++ ('=' :: ('"' :: (a.value ++ ('"' :: z))))) := by
      simp [renderAttr]
    rw [harr]
    have hpf : (str "class=\"").isPrefixOf
        (a.name ++ ('=' :: ('"' :: (a.value ++ ('"' :: z))))) = false := by
      cases hp : (str "class=\"").isPrefixOf
          (a.name ++ ('=' :: ('"' :: (a.value ++ ('"' :: z)))))
      · rfl
      · exfalso
        have hpre := List.isPrefixOf_iff_prefix.mp hp
        rcases prefix_append_cases hpre with hq | ⟨j, hj, hnj, hd⟩
        · exact absurd (List.all_eq_true.mp hname_all '='
            (hq.subset (by decide))) (by decide)
        · have hdne : (str "class=\"").drop j ≠ [] := by
            apply List.ne_nil_of_length_pos
            rw [List.length_drop]
            rw [show (str "class=\"").length = 7 from by decide] at hj ⊢
            omega
          have hhead := prefix_head hd hdne
          have hj5 : j = 5 := by
            have hh : ((str "class=\"").drop j).head? = some '=' := by rw [← hhead]; rfl
            have hdec : ∀ jj, jj < 7 →
                (((str "class=\"").drop jj).head? = some '=') → jj = 5 := by decide
            rw [show (str "class=\"").length = 7 from by decide] at hj
            exact hdec j hj hh
          subst hj5
          exact hno (by rw [hnj]; decide)
    simp [classAttrMatch, hpf]
  · cases n with
    | nil => exact absurd rfl hnne
    | cons c n =>
      have hdc : isDataNameCh c = true :=
        List.all_eq_true.mp hname_all c (hn.subset (List.mem_cons_self c n))
      have harr : ((c :: n) ++ (['=', '"'] ++ (a.value ++ ['"']))) ++ z =
          c :: (n ++ ('=' :: ('"' :: (a.value ++ ('"' :: z))))) := by simp
      rw [harr]
      exact classAttrMatch_none_head _ _ (dataName_not_space c hdc)
  · have harr : (['=', '"'] ++ (a.value ++ ['"'])) ++ z =
        '=' :: ('"' :: (a.value ++ ('"' :: z))) := by simp
    rw [harr]
    exact classAttrMatch_none_head _ _ (by decide)
  · have harr : ('"' :: (a.value ++ ['"'])) ++ z =
        '"' :: (a.value ++ ('"' :: z)) := by simp
    rw [harr]
    exact classAttrMatch_none_head _ _ (by decide)
  · cases w with
    | nil => exact absurd rfl hwne
    | cons c w =>
      have hwsub : ∀ x ∈ w, x ∈ a.value :=
        fun x hx => hw.subset (List.mem_cons_of_mem c hx)
      have harr : ((c :: w) ++ ['"']) ++ z = c :: (w ++ ('"' :: z)) := by simp
      rw [harr]
      cases hsp : isJsSpace c with
      | false => exact classAttrMatch_none_head _ _ hsp
      | true =>
        have hpf : (str "class=\"").isPrefixOf (w ++ ('"' :: z)) = false := by
          cases hp : (str "class=\"").isPrefixOf (w ++ ('"' :: z))
          · rfl
          · exfalso
            have hpre := List.isPrefixOf_iff_prefix.mp hp
            rcases prefix_append_cases hpre with hq | ⟨j, hj, hwj, hd⟩
            · exact absurd (List.all_eq_true.mp hval '='
                (hwsub '=' (hq.subset (by decide)))) (by decide)
            · have hdne : (str "class=\"").drop j ≠ [] := by
                apply List.ne_nil_of_length_pos
                rw [List.length_drop]
                rw [show (str "class=\"").length = 7 from by decide] at hj ⊢
                omega
              have hhead := prefix_head hd hdne
              have hj6 : j = 6 := by
                have hh : ((str "class=\"").drop j).head? = some '"' := by
                  rw [← hhead]; rfl
                have hdec : ∀ jj, jj < 7 →
                    (((str "class=\"").drop jj).head? = some '"') → jj = 6 := by decide
                rw [show (str "class=\"").length = 7 from by decide] at hj
                exact hdec j hj hh
              subst hj6
              have hmem : '=' ∈ w := by rw [hwj]; decide
              exact absurd (List.all_eq_true.mp hval '=' (hwsub '=' hmem)) (by decide)
        simp [classAttrMatch, hsp, hpf]
  · have harr : ['"'] ++ z = '"' :: z := rfl
    rw [harr]
    exact classAttrMatch_none_head _ _ (by decide)

theorem classReplacement_renderAttrs (a : HtmlAttr) (heq : a.name = str "class") :
    renderAttrs (clsT a) = classReplacement a.value := by
  rw [clsT, if_pos heq, classReplacement]
  dsimp only
  by_cases hcl :
      List.intercalate (str " ") ((splitOnChar ' ' a.value).filter keepClassToken) = []
  · rw [if_pos hcl, if_pos hcl]
    rfl
  · rw [if_neg hcl, if_neg hcl]
    show renderAttr _ ++ [] = _
    rw [renderAttr]
    rw [show str " class=\"" = [' '] ++ str "class" ++ ['=', '"'] from by decide,
        show str "\"" = ['"'] from by decide]
    simp

theorem classAttrMatch_hit (a : HtmlAttr) (ha : cleanAttrB a = true)
    (heq : a.name = str "class") (z : Str) :
    scanWith classAttrMatch (renderAttr a ++ z) =
      renderAttrs (clsT a) ++ scanWith classAttrMatch z := by
  obtain ⟨_, hval, _⟩ := cleanAttr_parts ha
  have hm : classAttrMatch (renderAttr a ++ z) =
      some (classReplacement a.value, (renderAttr a).length - 1) := by
    have harr : renderAttr a ++ z =
        ' ' :: (str "class=\"" ++ (a.value ++ ('"' :: z))) := by
      rw [renderAttr, heq]
      rw [show str "class=\"" = str "class" ++ ['=', '"'] from by decide]
      simp
    rw [harr]
    unfold classAttrMatch
    dsimp only
    rw [if_pos ⟨by decide, List.isPrefixOf_iff_prefix.mpr (List.prefix_append _ _)⟩]
    rw [show (7 : Nat) = (str "class=\"").length from rfl, List.drop_left]
    rw [splitAtQuote_clean a.value z hval]
    dsimp only
    have hl : (renderAttr a).length - 1 = (str "class=\"").length + a.value.length + 1 := by
      rw [renderAttr, heq]
      simp [List.length_append]
      rw [show (str "class").length = 5 from by decide,
          show (str "class=\"").length = 7 from by decide]
      omega
    rw [hl]
  rw [scanWith_head_match _ _ _ _ (by simp [renderAttr]) hm]
  rw [classReplacement_renderAttrs a heq]

theorem aria_item (a : HtmlAttr) (ha : cleanAttrB a = true) (z : Str) :
    scanWith ariaControlsMatch (renderAttr a ++ z) =
      renderAttr (ariaT a) ++ scanWith ariaControlsMatch z := by
  by_cases heq : a.name = str "aria-controls"
  · rw [ariaT, if_pos heq]
    exact ariaControlsMatch_hit a ha heq z
  · rw [ariaT, if_neg heq]
    exact scanWith_append_none _ _ _
      (fun t htne hts => ariaControlsMatch_skip a ha heq t z htne hts)

theorem id_item (a : HtmlAttr) (ha : cleanAttrB a = true) (z : Str) :
    scanWith idAttrMatch (renderAttr a ++ z) =
      renderAttr (idT a) ++ scanWith idAttrMatch z := by
  by_cases heq : a.name = str "id"
  · rw [idT, if_pos heq]
    exact idAttrMatch_hit a ha heq z
  · rw [idT, if_neg heq]
    exact scanWith_append_none _ _ _
      (fun t htne hts => idAttrMatch_skip a ha heq t z htne hts)

theorem data_item (a : HtmlAttr) (ha : cleanAttrB a = true) (z : Str) :
    scanWith dataAttrMatch (renderAttr a ++ z) =
      renderAttrs (dataT a) ++ scanWith dataAttrMatch z := by
  by_cases hd : isDataAttrName a.name = true
  · rw [dataT, if_pos hd]
    simpa [renderAttrs] using dataAttrMatch_hit a ha hd z
  · rw [dataT, if_neg hd]
    have hd0 : isDataAttrName a.name = false := by
      cases h : isDataAttrName a.name
      · rfl
      · exact absurd h hd
    have hone : renderAttrs [a] = renderAttr a := by simp [renderAttrs]
    rw [hone]
    exact scanWith_append_none _ _ _
      (fun t htne hts => dataAttrMatch_skip a ha hd0 t z htne hts)

theorem class_item (a : HtmlAttr) (ha : cleanAttrB a = true) (z : Str) :
    scanWith classAttrMatch (renderAttr a ++ z) =
      renderAttrs (clsT a) ++ scanWith classAttrMatch z := by
  by_cases heq : a.name = str "class"
  · exact classAttrMatch_hit a ha heq z
  · rw [clsT, if_neg heq]
    have hone : renderAttrs [a] = renderAttr a := by simp [renderAttrs]
    rw [hone]
    exact scanWith_append_none _ _ _
      (fun t htne hts => classAttrMatch_skip a ha heq t z htne hts)

theorem scan_attrs (m : Str → Option (Str × Nat)) (f : HtmlAttr → Str)
    (hitem : ∀ a, cleanAttrB a = true → ∀ z,
      scanWith m (renderAttr a ++ z) = f a ++ scanWith m z) :
    ∀ (l : List HtmlAttr), cleanAttrsB l = true → ∀ z,
      scanWith m (renderAttrs l ++ z) = l.flatMap f ++ scanWith m z := by
  intro l
  induction l with
  | nil => intro _ z; simp [renderAttrs]
  | cons a l ih =>
    intro hl z
    simp only [cleanAttrsB, List.all_cons, Bool.and_eq_true] at hl
    have h1 : renderAttrs (a :: l) ++ z = renderAttr a ++ (renderAttrs l ++ z) := by
      simp [renderAttrs]
    rw [h1, hitem a hl.1, ih hl.2 z]
    simp

theorem head_skip_space (m : Str → Option (Str × Nat))
    (hnone : ∀ c s, isJsSpace c = false → m (c :: s) = none)
    (tag : Str) (htag : cleanTagB tag = true) :
    ∀ t z, t ≠ [] → t <:+ ('<' :: tag) → m (t ++ z) = none := by
  intro t z htne hts
  simp only [cleanTagB, Bool.and_eq_true] at htag
  rcases List.suffix_cons_iff.mp hts with h1 | h1
  · rw [h1, List.cons_append]
    exact hnone '<' _ (by decide)
  · cases t with
    | nil => exact absurd rfl htne
    | cons c t' =>
      have hc : isWordChar c = true :=
        List.all_eq_true.mp htag.2 c (h1.subset (List.mem_cons_self c t'))
      rw [List.cons_append]
      exact hnone c _ (wordChar_not_space c hc)

theorem aria_head_skip (tag : Str) (htag : cleanTagB tag = true)
    (l : List HtmlAttr) (T : Str) :
    ∀ t, t ≠ [] → t <:+ ('<' :: tag) →
      ariaControlsMatch (t ++ (renderAttrs l ++ ('>' :: T))) = none := by
  intro t htne hts
  have hz : (renderAttrs l ++ ('>' :: T)).head? = some ' ' ∨
      (renderAttrs l ++ ('>' :: T)).head? = some '>' := by
    cases l with
    | nil => right; rfl
    | cons a l =>
      left
      have harr : renderAttrs (a :: l) ++ ('>' :: T) =
          ' ' :: (a.name ++ (['=', '"'] ++ (a.value ++
            ('"' :: (renderAttrs l ++ ('>' :: T)))))) := by
        simp [renderAttrs, renderAttr]
      rw [harr]
      rfl
  simp only [cleanTagB, Bool.and_eq_true] at htag
  rcases List.suffix_cons_iff.mp hts with h1 | h1
  · rw [h1, List.cons_append]
    exact ariaControlsMatch_none_head _ _ (by decide)
  · cases t with
    | nil => exact absurd rfl htne
    | cons c t' =>
      have htall : ∀ x ∈ c :: t', isWordChar x = true :=
        fun x hx => List.all_eq_true.mp htag.2 x (h1.subset hx)
      have hpf : (str "aria-controls=\"").isPrefixOf
          ((c :: t') ++ (renderAttrs l ++ ('>' :: T))) = false := by
        cases hp : (str "aria-controls=\"").isPrefixOf
            ((c :: t') ++ (renderAttrs l ++ ('>' :: T)))
        · rfl
        · exfalso
          have hpre := List.isPrefixOf_iff_prefix.mp hp
          rcases prefix_append_cases hpre with hq | ⟨j, hj, htj, hd⟩
          · exact absurd (htall '=' (hq.subset (by decide))) (by decide)
          · have hdne : (str "aria-controls=\"").drop j ≠ [] := by
              apply List.ne_nil_of_length_pos
              rw [List.length_drop]
              rw [show (str "aria-controls=\"").length = 15 from by decide] at hj ⊢
              omega
            have hhead := prefix_head hd hdne
            rw [show (str "aria-controls=\"").length = 15 from by decide] at hj
            rcases hz with hz | hz
            · have hh : ((str "aria-controls=\"").drop j).head? = some ' ' := by
                rw [← hhead]; exact hz
              have hdec : ∀ jj, jj < 15 →
                  ¬(((str "aria-controls=\"").drop jj).head? = some ' ') := by decide
              exact absurd hh (hdec j hj)
            · have hh : ((str "aria-controls=\"").drop j).head? = some '>' := by
                rw [← hhead]; exact hz
              have hdec : ∀ jj, jj < 15 →
                  ¬(((str "aria-controls=\"").drop jj).head? = some '>') := by decide
              exact absurd hh (hdec j hj)
      have hpf2 : (str "aria-controls=\"").isPrefixOf
          (c :: (t' ++ (renderAttrs l ++ ('>' :: T)))) = false := by
        rw [← List.cons_append]; exact hpf
      rw [List.cons_append]
      unfold ariaControlsMatch
      dsimp only
      rw [if_neg (fun hcond => by rw [hpf2] at hcond; exact Bool.false_ne_true hcond)]

theorem scan_elem (m : Str → Option (Str × Nat)) (f : HtmlAttr → Str)
    (tag : Str) (l : List HtmlAttr) (T : Str)
    (hl : cleanAttrsB l = true)
    (hitem : ∀ a, cleanAttrB a = true → ∀ z,
      scanWith m (renderAttr a ++ z) = f a ++ scanWith m z)
    (hhead : ∀ t, t ≠ [] → t <:+ ('<' :: tag) →
      m (t ++ (renderAttrs l ++ ('>' :: T))) = none)
    (hstop : ∀ s, m ('>' :: s) = none) :
    scanWith m (('<' :: tag) ++ (renderAttrs l ++ ('>' :: T))) =
      ('<' :: tag) ++ (l.flatMap f ++ ('>' :: scanWith m T)) := by
  rw [scanWith_append_none m ('<' :: tag) _ hhead]
  rw [scan_attrs m f hitem l hl ('>' :: T)]
  rw [scanWith_cons, hstop T]

theorem cleanAttr_emptyVal (a : HtmlAttr) (ha : cleanAttrB a = true) :
    cleanAttrB ⟨a.name, []⟩ = true := by
  simp only [cleanAttrB, Bool.and_eq_true] at ha ⊢
  exact ⟨⟨ha.1.1, by rfl⟩, by decide⟩

theorem cleanAttr_ariaT (a : HtmlAttr) (ha : cleanAttrB a = true) :
    cleanAttrB (ariaT a) = true := by
  rw [ariaT]
  by_cases heq : a.name = str "aria-controls"
  · rw [if_pos heq]; exact cleanAttr_emptyVal a ha
  · rw [if_neg heq]; exact ha

theorem cleanAttr_idT (a : HtmlAttr) (ha : cleanAttrB a = true) :
    cleanAttrB (idT a) = true := by
  rw [idT]
  by_cases heq : a.name = str "id"
  · rw [if_pos heq]; exact cleanAttr_emptyVal a ha
  · rw [if_neg heq]; exact ha

theorem cleanAttrs_map (f : HtmlAttr → HtmlAttr)
    (hf : ∀ a, cleanAttrB a = true → cleanAttrB (f a) = true)
    (l : List HtmlAttr) (hl : cleanAttrsB l = true) :
    cleanAttrsB (l.map f) = true := by
  simp only [cleanAttrsB, List.all_map, List.all_eq_true] at *
  exact fun a ha => hf a (hl a ha)

theorem cleanAttrs_dataT (l : List HtmlAttr) (hl : cleanAttrsB l = true) :
    cleanAttrsB (l.flatMap dataT) = true := by
  simp only [cleanAttrsB, List.all_eq_true] at *
  intro a ha
  rcases List.mem_flatMap.mp ha with ⟨b, hb, hab⟩
  rw [dataT] at hab
  by_cases hd : isDataAttrName b.name = true
  · rw [if_pos hd] at hab
    exact absurd hab (List.not_mem_nil a)
  · rw [if_neg hd] at hab
    rw [List.mem_singleton.mp hab]
    exact hl b hb

theorem renderAttrs_map (g : HtmlAttr → HtmlAttr) (l : List HtmlAttr) :
    renderAttrs (l.map g) = l.flatMap (fun a => renderAttr (g a)) := by
  induction l with
  | nil => rfl
  | cons a l ih =>
    show renderAttr (g a) ++ renderAttrs (l.map g) = _
    rw [List.flatMap_cons, ih]

theorem renderAttrs_flatMap (g : HtmlAttr → List HtmlAttr) (l : List HtmlAttr) :
    renderAttrs (l.flatMap g) = l.flatMap (fun a => renderAttrs (g a)) := by
  induction l with
  | nil => rfl
  | cons a l ih =>
    rw [List.flatMap_cons, List.flatMap_cons, ← ih]
    simp [renderAttrs]

theorem stripDynamicAttrs_elem (tag : Str) (l : List HtmlAttr) (T : Str)
    (htag : cleanTagB tag = true) (hl : cleanAttrsB l = true) :
    ∃ T4, stripDynamicAttrs (('<' :: tag) ++ (renderAttrs l ++ ('>' :: T))) =
      ('<' :: tag) ++ (renderAttrs (normAttrs l) ++ ('>' :: T4)) := by
  have hl1 : cleanAttrsB (l.map ariaT) = true := cleanAttrs_map ariaT cleanAttr_ariaT l hl
  have hl2 : cleanAttrsB ((l.map ariaT).map idT) = true :=
    cleanAttrs_map idT cleanAttr_idT _ hl1
  have hl3 : cleanAttrsB (((l.map ariaT).map idT).flatMap dataT) = true :=
    cleanAttrs_dataT _ hl2
  rw [stripDynamicAttrs]
  -- stage 1: aria-controls values
  rw [scan_elem ariaControlsMatch (fun a => renderAttr (ariaT a)) tag l T hl
    aria_item (aria_head_skip tag htag l T)
    (fun s => ariaControlsMatch_none_head '>' s (by decide))]
  rw [← renderAttrs_map ariaT l]
  -- stage 2: id values
  rw [scan_elem idAttrMatch (fun a => renderAttr (idT a)) tag (l.map ariaT) _ hl1
    id_item (fun t htne hts =>
      head_skip_space idAttrMatch idAttrMatch_none_head tag htag t _ htne hts)
    (fun s => idAttrMatch_none_head '>' s (by decide))]
  rw [← renderAttrs_map idT (l.map ariaT)]
  -- stage 3: data-* attributes
  rw [scan_elem dataAttrMatch (fun a => renderAttrs (dataT a)) tag
    ((l.map ariaT).map idT) _ hl2
    data_item (fun t htne hts =>
      head_skip_space dataAttrMatch dataAttrMatch_none_head tag htag t _ htne hts)
    (fun s => dataAttrMatch_none_head '>' s (by decide))]
  rw [← renderAttrs_flatMap dataT ((l.map ariaT).map idT)]
  -- stage 4: generated class tokens
  rw [scan_elem classAttrMatch (fun a => renderAttrs (clsT a)) tag
    (((l.map ariaT).map idT).flatMap dataT) _ hl3
    class_item (fun t htne hts =>
      head_skip_space classAttrMatch classAttrMatch_none_head tag htag t _ htne hts)
    (fun s => classAttrMatch_none_head '>' s (by decide))]
  rw [← renderAttrs_flatMap clsT (((l.map ariaT).map idT).flatMap dataT)]
  exact ⟨_, rfl⟩

theorem normalizeHtml_renderElem (e : HtmlElem) (hc : cleanElemB e = true)
    (hn : normalizeBase (renderElem e) = renderElem e) :
    ∃ T4, normalizeHtml (renderElem e) =
      ('<' :: e.tag) ++ (renderAttrs (normAttrs e.attrs) ++ ('>' :: T4)) := by
  rw [normalizeHtml, hn]
  simp only [cleanElemB, Bool.and_eq_true] at hc
  have harr : renderElem e = ('<' :: e.tag) ++ (renderAttrs e.attrs ++ ('>' ::
      (e.text ++ ('<' :: ('/' :: (e.tag ++ ['>'])))))) := by
    simp [renderElem]
  rw [harr]
  exact stripDynamicAttrs_elem e.tag e.attrs _ hc.1 hc.2

theorem parseOpeningTag_cons (rest : Str) :
    parseOpeningTag ('<' :: rest) =
      (if rest.takeWhile isWordChar = [] then none
       else
        match (rest.drop (rest.takeWhile isWordChar).length).drop
            (((rest.drop (rest.takeWhile isWordChar).length).takeWhile
              (fun c => c ≠ '>')).length) with
        | '>' :: _ => some (rest.takeWhile isWordChar,
            (rest.drop (rest.takeWhile isWordChar).length).takeWhile (fun c => c ≠ '>'))
        | _ => none) := rfl

theorem parse_shape (tag A T : Str) (htag : cleanTagB tag = true)
    (hAhead : A = [] ∨ ∃ s, A = ' ' :: s)
    (hAgt : ∀ c ∈ A, c ≠ '>') :
    parseOpeningTag (('<' :: tag) ++ (A ++ ('>' :: T))) = some (tag, A) := by
  have harr : ('<' :: tag) ++ (A ++ ('>' :: T)) = '<' :: (tag ++ (A ++ ('>' :: T))) := by
    simp
  rw [harr, parseOpeningTag_cons]
  simp only [cleanTagB, Bool.and_eq_true] at htag
  have htw : (tag ++ (A ++ ('>' :: T))).takeWhile isWordChar = tag := by
    apply takeWhile_append_stop _ _ _ htag.2
    intro c hc
    rcases hAhead with rfl | ⟨s, rfl⟩
    · simp only [List.nil_append, List.head?_cons, Option.some.injEq] at hc
      rw [← hc]; decide
    · simp only [List.cons_append, List.head?_cons, Option.some.injEq] at hc
      rw [← hc]; decide
  rw [htw]
  rw [if_neg (fun h => by rw [h] at htag; simp at htag)]
  rw [List.drop_left]
  have htw2 : (A ++ ('>' :: T)).takeWhile (fun c => c ≠ '>') = A := by
    apply takeWhile_append_stop
    · rw [List.all_eq_true]
      intro c hc
      simpa using hAgt c hc
    · intro c hc
      simp only [List.head?_cons, Option.some.injEq] at hc
      rw [← hc]
      simp
  rw [htw2, List.drop_left]
  rfl

theorem renderAttrs_shape (l : List HtmlAttr) :
    renderAttrs l = [] ∨ ∃ s, renderAttrs l = ' ' :: s := by
  cases l with
  | nil => left; rfl
  | cons a l =>
    right
    refine ⟨a.name ++ ('=' :: ('"' :: (a.value ++ ('"' :: renderAttrs l)))), ?_⟩
    simp [renderAttrs, renderAttr]

theorem splitOnChar_subset (sep : Char) :
    ∀ (s : Str), ∀ p ∈ splitOnChar sep s, ∀ c ∈ p, c ∈ s := by
  intro s
  induction s with
  | nil =>
    intro p hp c hc
    simp only [splitOnChar, List.mem_singleton] at hp
    subst hp
    simp at hc
  | cons d s ih =>
    intro p hp c hc
    rw [splitOnChar] at hp
    by_cases hd : d = sep
    · rw [if_pos hd] at hp
      rcases List.mem_cons.mp hp with rfl | hp2
      · simp at hc
      · exact List.mem_cons_of_mem d (ih p hp2 c hc)
    · rw [if_neg hd] at hp
      cases hsp : splitOnChar sep s with
      | nil =>
        rw [hsp] at hp
        simp only [List.mem_singleton] at hp
        subst hp
        rcases List.mem_cons.mp hc with rfl | h2
        · exact List.mem_cons_self c s
        · simp at h2
      | cons f r =>
        rw [hsp] at hp
        rcases List.mem_cons.mp hp with rfl | hp2
        · rcases List.mem_cons.mp hc with rfl | hc2
          · exact List.mem_cons_self c s
          · have hf : f ∈ splitOnChar sep s := by
              rw [hsp]; exact List.mem_cons_self f r
            exact List.mem_cons_of_mem d (ih f hf c hc2)
        · have hr : p ∈ splitOnChar sep s := by
            rw [hsp]; exact List.mem_cons_of_mem f hp2
          exact List.mem_cons_of_mem d (ih p hr c hc)

theorem all_intercalate (p : Char → Bool) (sep : Str) :
    ∀ (L : List Str), sep.all p = true → (∀ l ∈ L, l.all p = true) →
      (List.intercalate sep L).all p = true := by
  intro L
  induction L with
  | nil => intro _ _; rfl
  | cons x L ih =>
    intro hsep hL
    cases L with
    | nil =>
      have h1 : List.intercalate sep [x] = x := by simp [List.intercalate]
      rw [h1]
      exact hL x (List.mem_singleton_self x)
    | cons y L2 =>
      have hstep : List.intercalate sep (x :: y :: L2) =
          x ++ (sep ++ List.intercalate sep (y :: L2)) := by
        simp [List.intercalate]
      rw [hstep]
      simp only [List.all_append, Bool.and_eq_true]
      exact ⟨hL x (List.mem_cons_self x _), hsep,
        ih hsep (fun l hl => hL l (List.mem_cons_of_mem x hl))⟩

theorem normAttrs_chars (l : List HtmlAttr) (hl : cleanAttrsB l = true) :
    ∀ a ∈ normAttrs l, a.name.all isDataNameCh = true ∧ a.value.all cleanValCh = true := by
  have hl3 : cleanAttrsB (((l.map ariaT).map idT).flatMap dataT) = true :=
    cleanAttrs_dataT _ (cleanAttrs_map idT cleanAttr_idT _
      (cleanAttrs_map ariaT cleanAttr_ariaT l hl))
  intro a ha
  rw [normAttrs] at ha
  rcases List.mem_flatMap.mp ha with ⟨b, hb, hab⟩
  have hbc : cleanAttrB b = true := by
    simp only [cleanAttrsB, List.all_eq_true] at hl3
    exact hl3 b hb
  obtain ⟨⟨_, hball, _⟩, hbval, _⟩ := cleanAttr_parts hbc
  rw [clsT] at hab
  by_cases heq : b.name = str "class"
  · rw [if_pos heq] at hab
    dsimp only at hab
    by_cases hcl : List.intercalate (str " ")
        ((splitOnChar ' ' b.value).filter keepClassToken) = []
    · rw [if_pos hcl] at hab
      exact absurd hab (List.not_mem_nil a)
    · rw [if_neg hcl] at hab
      rw [List.mem_singleton.mp hab]
      constructor
      · show (str "class").all isDataNameCh = true
        decide
      apply all_intercalate
      · decide
      · intro tok htok
        rcases List.mem_filter.mp htok with ⟨htok2, _⟩
        rw [List.all_eq_true]
        intro c hcp
        exact List.all_eq_true.mp hbval c (splitOnChar_subset ' ' b.value tok htok2 c hcp)
  · rw [if_neg heq] at hab
    rw [List.mem_singleton.mp hab]
    exact ⟨hball, hbval⟩

theorem renderAttrs_no_gt (l : List HtmlAttr)
    (hch : ∀ a ∈ l, a.name.all isDataNameCh = true ∧ a.value.all cleanValCh = true) :
    ∀ c ∈ renderAttrs l, c ≠ '>' := by
  intro c hc hgt
  subst hgt
  rcases List.mem_flatMap.mp hc with ⟨a, hal, hca⟩
  obtain ⟨hname, hval⟩ := hch a hal
  rw [renderAttr] at hca
  rcases List.mem_append.mp hca with h | h
  · rcases List.mem_append.mp h with h | h
    · rcases List.mem_append.mp h with h | h
      · rcases List.mem_append.mp h with h | h
        · simp at h
        · exact absurd (List.all_eq_true.mp hname _ h) (by decide)
      · simp at h
    · exact absurd (List.all_eq_true.mp hval _ h) (by decide)
  · simp at h

theorem parseOpeningTag_norm (e : HtmlElem) (hc : cleanElemB e = true)
    (hn : normalizeBase (renderElem e) = renderElem e) :
    parseOpeningTag (normalizeHtml (renderElem e)) =
      some (e.tag, renderAttrs (normAttrs e.attrs)) := by
  obtain ⟨T4, hT⟩ := normalizeHtml_renderElem e hc hn
  rw [hT]
  have hc2 := hc
  simp only [cleanElemB, Bool.and_eq_true] at hc2
  exact parse_shape e.tag _ T4 hc2.1 (renderAttrs_shape _)
    (renderAttrs_no_gt _ (normAttrs_chars e.attrs hc2.2))

theorem norm1_id (a : HtmlAttr) (h : a.name = str "id") :
    (dataT (idT (ariaT a))).flatMap clsT = [⟨str "id", []⟩] := by
  rw [ariaT, if_neg (fun hh : a.name = str "aria-controls" => by
    rw [h] at hh; exact absurd hh (by decide))]
  rw [idT, if_pos h]
  rw [dataT, if_neg (fun hh => by
    rw [show (⟨a.name, []⟩ : HtmlAttr).name = a.name from rfl, h] at hh
    exact absurd hh (by decide))]
  have h1 : ([(⟨a.name, []⟩ : HtmlAttr)]).flatMap clsT = clsT ⟨a.name, []⟩ := by simp
  rw [h1, clsT]
  rw [if_neg (fun hh => by
    rw [show (⟨a.name, []⟩ : HtmlAttr).name = a.name from rfl, h] at hh
    exact absurd hh (by decide))]
  rw [h]

theorem norm1_class (a : HtmlAttr) (h : a.name = str "class") :
    (dataT (idT (ariaT a))).flatMap clsT = clsT ⟨str "class", a.value⟩ := by
  rw [ariaT, if_neg (fun hh : a.name = str "aria-controls" => by
    rw [h] at hh; exact absurd hh (by decide))]
  rw [idT, if_neg (fun hh : a.name = str "id" => by
    rw [h] at hh; exact absurd hh (by decide))]
  rw [dataT, if_neg (fun hh => by
    rw [h] at hh; exact absurd hh (by decide))]
  have h1 : ([a]).flatMap clsT = clsT a := by simp
  rw [h1]
  have h2 : a = ⟨str "class", a.value⟩ := by
    obtain ⟨n, v⟩ := a
    simp only at h
    rw [h]
  rw [← h2]

theorem clsT_filter_congr (v1 v2 : Str)
    (h : (splitOnChar ' ' v1).filter keepClassToken =
      (splitOnChar ' ' v2).filter keepClassToken) :
    clsT ⟨str "class", v1⟩ = clsT ⟨str "class", v2⟩ := by
  rw [clsT, clsT, if_pos rfl, if_pos rfl]
  dsimp only
  rw [h]

theorem norm_pair_eq (a1 a2 : HtmlAttr) (h : attrRel a1 a2) :
    (dataT (idT (ariaT a1))).flatMap clsT = (dataT (idT (ariaT a2))).flatMap clsT := by
  rcases h with rfl | ⟨h1, h2⟩ | ⟨h1, h2, h3⟩
  · rfl
  · rw [norm1_id a1 h1, norm1_id a2 h2]
  · rw [norm1_class a1 h1, norm1_class a2 h2]
    exact clsT_filter_congr _ _ h3

theorem normAttrs_cons (a : HtmlAttr) (l : List HtmlAttr) :
    normAttrs (a :: l) = (dataT (idT (ariaT a))).flatMap clsT ++ normAttrs l := by
  rw [normAttrs, List.map_cons, List.map_cons, List.flatMap_cons, List.flatMap_append]
  rfl

theorem normAttrs_congr {l1 l2 : List HtmlAttr} (h : List.Forall₂ attrRel l1 l2) :
    normAttrs l1 = normAttrs l2 := by
  induction h with
  | nil => rfl
  | cons hpair htail ih =>
    rw [normAttrs_cons, normAttrs_cons, norm_pair_eq _ _ hpair, ih]

theorem sig_eq_of_related (e1 e2 : HtmlElem) (v1 v2 : ViolationWithContext)
    (hc1 : cleanElemB e1 = true) (hc2 : cleanElemB e2 = true)
    (hn1 : normalizeBase (renderElem e1) = renderElem e1)
    (hn2 : normalizeBase (renderElem e2) = renderElem e2)
    (hrel : elemRelated e1 e2)
    (hh1 : v1.html = renderElem e1) (hh2 : v2.html = renderElem e2)
    (hrule : v1.ruleId = v2.ruleId) (himp : v1.impact = v2.impact)
    (hsel : selectorPattern v1.context.cssSelector =
      selectorPattern v2.context.cssSelector) :
    createViolationSignature v1 = createViolationSignature v2 := by
  obtain ⟨htag, hf2⟩ := hrel
  unfold createViolationSignature
  dsimp only
  rw [hh1, hh2, parseOpeningTag_norm e1 hc1 hn1, parseOpeningTag_norm e2 hc2 hn2]
  dsimp only
  rw [hrule, hsel, htag, normAttrs_congr hf2]
  rw [show impactOr v1 = impactOr v2 from by rw [impactOr, impactOr, himp]]

theorem addInst_records (m : GroupMap) (p : Str × ViolationWithContext) :
    ∃ q ∈ addInst m p, q.1 = sigOf p ∧ occOf p ∈ q.2.occurrences := by
  unfold addInst addViolation
  dsimp only
  have hex : ∃ q1 ∈ (if m.any (fun r => r.1 = createViolationSignature p.2) then m
      else m ++ [(createViolationSignature p.2,
        freshGroup (createViolationSignature p.2) p.2)]),
      q1.1 = createViolationSignature p.2 := by
    by_cases hany : m.any (fun r => r.1 = createViolationSignature p.2) = true
    · rw [if_pos hany]
      rcases List.any_eq_true.mp hany with ⟨q1, hq1, hq1s⟩
      exact ⟨q1, hq1, by simpa using hq1s⟩
    · rw [if_neg hany]
      exact ⟨_, List.mem_append_right _ (List.mem_singleton_self _), rfl⟩
  rcases hex with ⟨q1, hq1m, hq1s⟩
  refine ⟨(q1.1, pushOccurrence p.1 p.2 q1.2), ?_, hq1s, ?_⟩
  · have hmm := List.mem_map_of_mem
      (fun r => if r.1 = createViolationSignature p.2 then
        (r.1, pushOccurrence p.1 p.2 r.2) else r) hq1m
    dsimp only at hmm
    rw [if_pos hq1s] at hmm
    exact hmm
  · rw [show (q1.1, pushOccurrence p.1 p.2 q1.2).2 = pushOccurrence p.1 p.2 q1.2 from rfl,
      pushOcc_occurrences]
    exact List.mem_append_right _ (List.mem_singleton_self _)

theorem addInst_preserves (m : GroupMap) (p p0 : Str × ViolationWithContext)
    (h : ∃ q ∈ m, q.1 = sigOf p0 ∧ occOf p0 ∈ q.2.occurrences) :
    ∃ q ∈ addInst m p, q.1 = sigOf p0 ∧ occOf p0 ∈ q.2.occurrences := by
  rcases h with ⟨q, hqm, hqs, hqo⟩
  unfold addInst addViolation
  dsimp only
  have hq1m : q ∈ (if m.any (fun r => r.1 = createViolationSignature p.2) then m
      else m ++ [(createViolationSignature p.2,
        freshGroup (createViolationSignature p.2) p.2)]) := by
    by_cases hany : m.any (fun r => r.1 = createViolationSignature p.2) = true
    · rw [if_pos hany]; exact hqm
    · rw [if_neg hany]; exact List.mem_append_left _ hqm
  by_cases hqsig : q.1 = createViolationSignature p.2
  · refine ⟨(q.1, pushOccurrence p.1 p.2 q.2), ?_, hqs, ?_⟩
    · have hmm := List.mem_map_of_mem
        (fun r => if r.1 = createViolationSignature p.2 then
          (r.1, pushOccurrence p.1 p.2 r.2) else r) hq1m
      dsimp only at hmm
      rw [if_pos hqsig] at hmm
      exact hmm
    · rw [show (q.1, pushOccurrence p.1 p.2 q.2).2 = pushOccurrence p.1 p.2 q.2 from rfl,
        pushOcc_occurrences]
      exact List.mem_append_left _ hqo
  · refine ⟨q, ?_, hqs, hqo⟩
    have hmm := List.mem_map_of_mem
      (fun r => if r.1 = createViolationSignature p.2 then
        (r.1, pushOccurrence p.1 p.2 r.2) else r) hq1m
    dsimp only at hmm
    rw [if_neg hqsig] at hmm
    exact hmm

theorem fold_records (l : List (Str × ViolationWithContext)) :
    ∀ m p0, (p0 ∈ l ∨ ∃ q ∈ m, q.1 = sigOf p0 ∧ occOf p0 ∈ q.2.occurrences) →
      ∃ q ∈ l.foldl addInst m, q.1 = sigOf p0 ∧ occOf p0 ∈ q.2.occurrences := by
  induction l with
  | nil =>
    intro m p0 h
    rcases h with h | h
    · simp at h
    · exact h
  | cons p ps ih =>
    intro m p0 h
    show ∃ q ∈ ps.foldl addInst (addInst m p), _
    rcases h with h | h
    · rcases List.mem_cons.mp h with rfl | h2
      · exact ih _ p0 (Or.inr (addInst_records m p0))
      · exact ih _ p0 (Or.inl h2)
    · exact ih _ p0 (Or.inr (addInst_preserves m p p0 h))

theorem group_of_instance (entries : List (Str × List ViolationWithContext))
    (p : Str × ViolationWithContext) (hp : p ∈ instancesOf entries) :
    ∃ g ∈ groupViolations entries, g.signature = sigOf p ∧ occOf p ∈ g.occurrences := by
  rcases fold_records (instancesOf entries) [] p (Or.inl hp) with ⟨q, hqm, hqs, hqo⟩
  have hgood : GoodMap (buildGroups entries) := by
    rw [buildGroups_eq_fold]
    exact goodMap_fold _ [] goodMap_nil
  rw [← buildGroups_eq_fold] at hqm
  have hsig : q.2.signature = q.1 := (hgood.2 q hqm).1
  have hmem2 : q.2 ∈ (buildGroups entries).map Prod.snd := List.mem_map_of_mem Prod.snd hqm
  have hperm := sortByLe_perm groupLe ((buildGroups entries).map Prod.snd)
  refine ⟨q.2, ?_, ?_, hqo⟩
  · rw [groupViolations]
    exact hperm.mem_iff.mpr hmem2
  · rw [hsig, hqs]

theorem groupViolations_sig_nodup (entries : List (Str × List ViolationWithContext)) :
    ((groupViolations entries).map (fun g => g.signature)).Nodup := by
  have hgood : GoodMap (buildGroups entries) := by
    rw [buildGroups_eq_fold]
    exact goodMap_fold _ [] goodMap_nil
  have hperm := sortByLe_perm groupLe ((buildGroups entries).map Prod.snd)
  have hpm : ((groupViolations entries).map (fun g => g.signature)).Perm
      (((buildGroups entries).map Prod.snd).map (fun g => g.signature)) :=
    hperm.map _
  have heq : ((buildGroups entries).map Prod.snd).map (fun g => g.signature) =
      (buildGroups entries).map Prod.fst := by
    rw [List.map_map]
    apply List.map_congr_left
    intro q hq
    exact (hgood.2 q hq).1
  exact hpm.nodup_iff.mpr (heq ▸ hgood.1)

/-- C1.  Signature stability: two violation instances with the same rule and
impact whose rendered elements differ only in text content, `id` attribute
values and machine-generated class tokens, and whose CSS selectors normalize
to the same pattern, receive an identical signature from
`createViolationSignature`; and for every grouping input containing both
instances, `groupViolations` places both occurrences in one ViolationGroup. -/
theorem c1_signature_stability (e1 e2 : HtmlElem) (v1 v2 : ViolationWithContext)
    (hc1 : cleanElemB e1 = true) (hc2 : cleanElemB e2 = true)
    (hn1 : normalizeBase (renderElem e1) = renderElem e1)
    (hn2 : normalizeBase (renderElem e2) = renderElem e2)
    (hrel : elemRelated e1 e2)
    (hh1 : v1.html = renderElem e1) (hh2 : v2.html = renderElem e2)
    (hrule : v1.ruleId = v2.ruleId) (himp : v1.impact = v2.impact)
    (hsel : selectorPattern v1.context.cssSelector =
      selectorPattern v2.context.cssSelector) :
    createViolationSignature v1 = createViolationSignature v2 ∧
    ∀ entries u1 u2,
      (u1, v1) ∈ instancesOf entries → (u2, v2) ∈ instancesOf entries →
      ∃ g ∈ groupViolations entries,
        occOf (u1, v1) ∈ g.occurrences ∧ occOf (u2, v2) ∈ g.occurrences := by
  have hsig := sig_eq_of_related e1 e2 v1 v2 hc1 hc2 hn1 hn2 hrel hh1 hh2 hrule himp hsel
  refine ⟨hsig, ?_⟩
  intro entries u1 u2 h1 h2
  rcases group_of_instance entries (u1, v1) h1 with ⟨g1, hg1m, hg1s, hg1o⟩
  rcases group_of_instance entries (u2, v2) h2 with ⟨g2, hg2m, hg2s, hg2o⟩
  have hgeq : g1 = g2 := by
    have hnd := groupViolations_sig_nodup entries
    have hss : g1.signature = g2.signature := by
      rw [hg1s, hg2s]
      exact hsig
    exact List.inj_on_of_nodup_map hnd hg1m hg2m hss
  subst hgeq
  exact ⟨g1, hg1m, hg1o, hg2o⟩

theorem c1_signature_stability_witness :
    createViolationSignature c1v1 = createViolationSignature c1v2 ∧
    ∀ entries u1 u2,
      (u1, c1v1) ∈ instancesOf entries → (u2, c1v2) ∈ instancesOf entries →
      ∃ g ∈ groupViolations entries,
        occOf (u1, c1v1) ∈ g.occurrences ∧ occOf (u2, c1v2) ∈ g.occurrences :=
  c1_signature_stability c1e1 c1e2 c1v1 c1v2 (by decide) (by decide) (by decide)
    (by decide)
    ⟨rfl, List.Forall₂.cons (Or.inr (Or.inl ⟨rfl, rfl⟩))
      (List.Forall₂.cons (Or.inr (Or.inr ⟨rfl, rfl, by decide⟩)) List.Forall₂.nil)⟩
    rfl rfl rfl rfl rfl
